import Mathlib

/-!
Verification development for NabBot's legacy database migration engine
(`cogs/utils/database_migration.py`).

The migration reads loosely-typed rows out of a legacy SQLite store and
writes them into a normalized PostgreSQL schema.  We embed the target
store as explicit Lean state (lists of rows plus serial-id counters), the
legacy store as lists of records, and each `import_*` coroutine as a pure
state-passing function.

Modelling conventions:
* Timestamps are modelled by their unix-epoch second count as an `Int`.
  `datetime.datetime.utcfromtimestamp` is an injective, order-preserving
  map from epoch seconds to timestamps, so equality and interval
  comparisons of converted timestamps coincide with those of the raw
  integers; `utcfromtimestamp` below is that embedding.
* `now()` (the DEFAULT of `modified`/`created` columns and the value the
  `update_modified_column` trigger writes) is modelled by a single `now`
  parameter threaded through a run.
* PostgreSQL serial columns are modelled by a `next…Id` counter per table.
* `ON CONFLICT … DO NOTHING` inserts are modelled by an existence check
  over the corresponding uniqueness key followed by a conditional append.
* The `character` table carries `UNIQUE(name)`, and its
  `update_character_modified` trigger runs `BEFORE UPDATE … FOR EACH ROW`,
  setting `NEW.modified = now()`.  The upsert
  `ON CONFLICT(name) DO UPDATE SET name = EXCLUDED.name RETURNING id`
  performs an UPDATE of the conflicting row, so the trigger fires on it:
  the model rewrites the matching row with `name := name` (the no-op echo)
  and `modified := now`.
-/

namespace NabBot

/-! ### Target schema rows -/

/-- A row of the target `"character"` table. -/
structure Character where
  id : Nat
  user_id : Int
  name : String
  level : Option Int
  world : Option String
  vocation : Option String
  guild : Option String
  modified : Int
  created : Int
deriving DecidableEq, Repr

/-- A row of the target `character_death` table. -/
structure CharacterDeath where
  id : Nat
  character_id : Nat
  level : Option Int
  date : Int
deriving DecidableEq, Repr

/-- A row of the target `character_death_killer` table. -/
structure DeathKiller where
  death_id : Nat
  position : Int
  name : String
  player : Bool
deriving DecidableEq, Repr

/-- A row of the target `character_levelup` table. -/
structure CharacterLevelUp where
  id : Nat
  character_id : Nat
  level : Option Int
  date : Int
deriving DecidableEq, Repr

/-- A row of the target `event` table. -/
structure EventRow where
  id : Nat
  user_id : Int
  server_id : Int
  name : String
  description : Option String
  start : Int
  active : Bool
  reminder : Int
  joinable : Bool
  slots : Int
  modified : Int
  created : Int
deriving DecidableEq, Repr

/-- A JSON value as stored in a `jsonb` column (arrays only arise from
legacy list-typed values, which are lists of strings). -/
inductive Json where
  | str (s : String)
  | num (n : Int)
  | bool (b : Bool)
  | null
  | arr (xs : List String)
deriving DecidableEq, Repr

/-- A row of the target `server_property` table. -/
structure ServerPropertyRow where
  server_id : Int
  key : String
  value : Json
deriving DecidableEq, Repr

/-! ### Legacy (SQLite) records -/

/-- A row of the legacy `chars` table, in the column order fetched by
`import_characters`. -/
structure LegacyChar where
  id : Int
  user_id : Int
  name : String
  level : Option Int
  vocation : Option String
  world : Option String
  guild : Option String
deriving DecidableEq, Repr

/-- A row of the legacy `char_deaths` table. -/
structure LegacyDeath where
  char_id : Int
  level : Option Int
  date : Int
  killer : String
  byplayer : Int
deriving DecidableEq, Repr

/-- A row of the legacy `char_levelups` table. -/
structure LegacyLevelup where
  char_id : Int
  level : Option Int
  date : Int
deriving DecidableEq, Repr

/-- A row of the legacy `events` table, in the column order fetched by
`import_events`. -/
structure LegacyEvent where
  id : Int
  creator : Int
  name : String
  start : Int
  active : Int
  status : Int
  description : Option String
  server : Int
  joinable : Int
  slots : Int
deriving DecidableEq, Repr

/-- A row of the legacy `event_subscribers` table. -/
structure LegacySubscriber where
  event_id : Int
  user_id : Int
deriving DecidableEq, Repr

/-- A row of the legacy `event_participants` table. -/
structure LegacyParticipant where
  char_id : Int
  event_id : Int
deriving DecidableEq, Repr

/-- A raw legacy `server_properties.value` as fetched into Python.  SQLite
is dynamically typed: a cell is a string, an integer, or NULL.  A TEXT
cell that holds the JSON encoding of a list of strings (the shape taken
by `prefixes` and `times` values) is represented by its parse
`SVal.list xs`; note the underlying text of such a cell is never the
empty string (even `"[]"` has two characters), which matters for Python
truthiness. -/
inductive SVal where
  | str (s : String)
  | int (n : Int)
  | null
  | list (xs : List String)
deriving DecidableEq, Repr

/-- A row of the legacy `server_properties` table (`value`'s column name
in that table is `value`, the key column is `name`). -/
structure LegacyProperty where
  server_id : Int
  name : String
  value : SVal
deriving DecidableEq, Repr

/-- A row of the legacy `auto_roles` table. -/
structure LegacyAutoRole where
  server_id : Int
  role_id : Int
  guild : String
deriving DecidableEq, Repr

/-- A row of the legacy `joinable_roles` table. -/
structure LegacyJoinableRole where
  server_id : Int
  role_id : Int
deriving DecidableEq, Repr

/-- The whole legacy store. -/
structure LegacyDB where
  chars : List LegacyChar
  char_levelups : List LegacyLevelup
  char_deaths : List LegacyDeath
  server_properties : List LegacyProperty
  events : List LegacyEvent
  event_subscribers : List LegacySubscriber
  event_participants : List LegacyParticipant
  auto_roles : List LegacyAutoRole
  joinable_roles : List LegacyJoinableRole
deriving DecidableEq, Repr

/-! ### Target store state, split by the tables each importer touches -/

/-- The tables touched by `import_characters`. -/
structure CharDB where
  characters : List Character
  nextCharId : Nat
  deaths : List CharacterDeath
  nextDeathId : Nat
  killers : List DeathKiller
  levelups : List CharacterLevelUp
  nextLevelupId : Nat
deriving DecidableEq, Repr

/-- The tables touched by `import_server_properties`. -/
structure PropDB where
  server_property : List ServerPropertyRow
  server_prefixes : List (Int × List String)
deriving DecidableEq, Repr

/-- The tables touched by `import_events`. -/
structure EventDB where
  events : List EventRow
  nextEventId : Nat
  event_subscriber : List (Nat × Int)
  event_participant : List (Nat × Nat)
deriving DecidableEq, Repr

/-- The tables touched by `import_roles`. -/
structure RoleDB where
  role_auto : List (Int × Int × String)
  role_joinable : List (Int × Int)
deriving DecidableEq, Repr

/-- The whole target store. -/
structure DB where
  charDB : CharDB
  propDB : PropDB
  eventDB : EventDB
  roleDB : RoleDB
deriving DecidableEq, Repr

/-- `datetime.datetime.utcfromtimestamp`, with timestamps identified with
their epoch-second count (see the module docstring). -/
def utcfromtimestamp (t : Int) : Int := t

/-! ### import_characters -/

/-- The `SELECT … FROM "character" WHERE name = $1`-style lookup: first
row whose `name` matches. -/
def lookupCharRow (cdb : CharDB) (name : String) : Option Character :=
  cdb.characters.find? (fun r => r.name == name)

/-- `fetchval('SELECT id FROM "character" WHERE name = $1', name)`. -/
def lookupCharId (cdb : CharDB) (name : String) : Option Nat :=
  (lookupCharRow cdb name).map (fun r => r.id)

/-- The upsert
`INSERT INTO "character" (user_id, name, level, vocation, world, guild)
 VALUES … ON CONFLICT(name) DO UPDATE SET name = EXCLUDED.name RETURNING id`.
On conflict the row is UPDATEd (name echoed to itself), which fires the
`update_character_modified` trigger setting `modified = now()`; the
existing row's id is returned.  Otherwise a fresh row is appended with
the serial id, `modified`/`created` defaulting to `now()`. -/
def upsertCharacter (now : Int) (cdb : CharDB) (ch : LegacyChar) : Nat × CharDB :=
  match lookupCharRow cdb ch.name with
  | some r =>
      (r.id,
       { cdb with
           characters := cdb.characters.map
             (fun x => if x.name == ch.name then { x with name := ch.name, modified := now }
                       else x) })
  | none =>
      (cdb.nextCharId,
       { cdb with
           characters := cdb.characters ++
             [{ id := cdb.nextCharId, user_id := ch.user_id, name := ch.name,
                level := ch.level, world := ch.world, vocation := ch.vocation,
                guild := ch.guild, modified := now, created := now }],
           nextCharId := cdb.nextCharId + 1 })

/-- A legacy level-up tagged with the resolved new character id
(the tuple `(char_id, level, date)` accumulated into `levelups`). -/
structure TaggedLevelup where
  char_id : Nat
  level : Option Int
  date : Int
deriving DecidableEq, Repr

/-- A legacy death tagged with the resolved new character id
(the tuple `(char_id, level, date, killer, byplayer)` accumulated into
`deaths`). -/
structure TaggedDeath where
  char_id : Nat
  level : Option Int
  date : Int
  killer : String
  byplayer : Int
deriving DecidableEq, Repr

/-- `SELECT ?, level, date FROM char_levelups WHERE char_id = ? ORDER BY date ASC`
with the resolved new id substituted for `?`. -/
def charLevelups (lg : LegacyDB) (char_id : Nat) (old_id : Int) : List TaggedLevelup :=
  (List.insertionSort (fun a b => a.date ≤ b.date)
      (lg.char_levelups.filter (fun l => l.char_id == old_id))).map
    (fun l => { char_id := char_id, level := l.level, date := l.date })

/-- `SELECT ?, level, date, killer, byplayer FROM char_deaths WHERE char_id = ?`
with the resolved new id substituted for `?` (no ORDER BY: storage order). -/
def charDeaths (lg : LegacyDB) (char_id : Nat) (old_id : Int) : List TaggedDeath :=
  (lg.char_deaths.filter (fun d => d.char_id == old_id)).map
    (fun d => { char_id := char_id, level := d.level, date := d.date,
                killer := d.killer, byplayer := d.byplayer })

/-- The first loop of `import_characters`: upsert each legacy character
and accumulate its level-ups and deaths tagged with the resolved id, in
character-processing order. -/
def collectChars (now : Int) (lg : LegacyDB) :
    CharDB → List LegacyChar → CharDB × List TaggedLevelup × List TaggedDeath
  | cdb, [] => (cdb, [], [])
  | cdb, ch :: rest =>
    let p := upsertCharacter now cdb ch
    let r := collectChars now lg p.2 rest
    (r.1, charLevelups lg p.1 ch.id ++ r.2.1, charDeaths lg p.1 ch.id ++ r.2.2)

/-- `SELECT id FROM character_death WHERE date = $1 AND character_id = $2`
turned into a boolean existence check. -/
def deathExists (cdb : CharDB) (char_id : Nat) (date : Int) : Bool :=
  cdb.deaths.any (fun r => r.date == date && r.character_id == char_id)

/-- `INSERT INTO character_death(character_id, level, date) VALUES … RETURNING id`
followed by
`INSERT INTO character_death_killer(death_id, name, player) VALUES …`
(position takes its column DEFAULT 0; `player` is `byplayer == 1`). -/
def insertDeath (cdb : CharDB) (d : TaggedDeath) : CharDB :=
  { cdb with
      deaths := cdb.deaths ++
        [{ id := cdb.nextDeathId, character_id := d.char_id, level := d.level,
           date := utcfromtimestamp d.date }],
      nextDeathId := cdb.nextDeathId + 1,
      killers := cdb.killers ++
        [{ death_id := cdb.nextDeathId, position := 0, name := d.killer,
           player := d.byplayer == 1 }] }

/-- The deaths loop of `import_characters`: skip (counting the duplicate)
when a death for the same character at the exact converted timestamp
already exists, insert the death plus its killer row otherwise.  Returns
the final state and `skipped_deaths`. -/
def importDeaths : CharDB → List TaggedDeath → CharDB × Nat
  | cdb, [] => (cdb, 0)
  | cdb, d :: rest =>
    if deathExists cdb d.char_id (utcfromtimestamp d.date) then
      let r := importDeaths cdb rest
      (r.1, r.2 + 1)
    else
      importDeaths (insertDeath cdb d) rest

/-- `SELECT id FROM character_levelup WHERE character_id = $1 AND
GREATEST($2-date, date-$2) <= interval '15' second` turned into a
boolean existence check. -/
def levelupExists (cdb : CharDB) (char_id : Nat) (date : Int) : Bool :=
  cdb.levelups.any
    (fun r => r.character_id == char_id &&
      decide (max (date - r.date) (r.date - date) ≤ (15 : Int)))

/-- `INSERT INTO character_levelup(character_id, level, date) VALUES …`. -/
def insertLevelup (cdb : CharDB) (l : TaggedLevelup) : CharDB :=
  { cdb with
      levelups := cdb.levelups ++
        [{ id := cdb.nextLevelupId, character_id := l.char_id, level := l.level,
           date := utcfromtimestamp l.date }],
      nextLevelupId := cdb.nextLevelupId + 1 }

/-- The level-ups loop of `import_characters`: skip (counting the
duplicate) when a level-up of the same character within a 15-second
margin of the converted timestamp already exists, insert otherwise.
Returns the final state and `skipped_levelups`. -/
def importLevelups : CharDB → List TaggedLevelup → CharDB × Nat
  | cdb, [] => (cdb, 0)
  | cdb, l :: rest =>
    if levelupExists cdb l.char_id (utcfromtimestamp l.date) then
      let r := importLevelups cdb rest
      (r.1, r.2 + 1)
    else
      importLevelups (insertLevelup cdb l) rest

/-- `import_characters`: fetch legacy `chars` ordered by id ascending,
upsert each and collect tagged level-ups/deaths, then process deaths
sorted globally by timestamp, then level-ups sorted globally by
timestamp.  Returns the final state, `skipped_deaths` and
`skipped_levelups` (`sorted(…, key=itemgetter(2))` is a stable sort on
the date component, as is `List.insertionSort`). -/
def import_characters (now : Int) (lg : LegacyDB) (cdb : CharDB) : CharDB × Nat × Nat :=
  let rows := List.insertionSort (fun a b => a.id ≤ b.id) lg.chars
  let c := collectChars now lg cdb rows
  let d := importDeaths c.1 (List.insertionSort (fun a b => a.date ≤ b.date) c.2.2)
  let l := importLevelups d.1 (List.insertionSort (fun a b => a.date ≤ b.date) c.2.1)
  (l.1, d.2, l.2)

/-! ### import_server_properties -/

/-- Python truthiness `bool(value)` of a raw legacy value: a string is
truthy iff non-empty, an integer iff nonzero, NULL (None) is falsy.  A
TEXT cell holding a JSON array is a non-empty string (at least `"[]"`),
hence always truthy. -/
def pyBool : SVal → Bool
  | .str s => s != ""
  | .int n => n != 0
  | .null => false
  | .list _ => true

/-- `json.loads(value)` on a raw legacy value, modelled on the value
shapes the legacy store contains for list-typed keys: a TEXT cell
represented by its parsed list of strings succeeds, anything else (a
non-JSON text, an integer or NULL, on which `json.loads` raises) is a
parse failure. -/
def jsonLoads : SVal → Except String SVal
  | .list xs => .ok (.list xs)
  | _ => .error "json.loads: invalid legacy value"

/-- `json.dumps(value)` of a raw legacy value, as the JSON value stored
into a `jsonb` column. -/
def jsonDumps : SVal → Json
  | .str s => .str s
  | .int n => .num n
  | .null => .null
  | .list xs => .arr xs

/-- Existence check backing `INSERT INTO server_prefixes … ON CONFLICT DO
NOTHING` (primary key `server_id`). -/
def prefixesExists (pdb : PropDB) (server : Int) : Bool :=
  pdb.server_prefixes.any (fun p => p.1 == server)

/-- Existence check backing `INSERT INTO server_property … ON
CONFLICT(server_id, key) DO NOTHING`. -/
def propertyExists (pdb : PropDB) (server : Int) (key : String) : Bool :=
  pdb.server_property.any (fun r => r.server_id == server && r.key == key)

/-- One iteration of the `import_server_properties` loop: `prefixes`
rows are parsed as a list of strings and inserted into
`server_prefixes` with conflict-skip, then the loop `continue`s (no
`server_property` row); `times` values are re-encoded through
`json.dumps(json.loads(value))`; `commandsonly` through
`json.dumps(bool(value))`; anything else through `json.dumps(value)`;
the result is inserted into `server_property` with conflict-skip.  A
raised `json.loads` error propagates. -/
def importProperty (pdb : PropDB) (row : LegacyProperty) : Except String PropDB :=
  let server := row.server_id
  if row.name == "prefixes" then
    match jsonLoads row.value with
    | .error e => .error e
    | .ok (.list xs) =>
        .ok (if prefixesExists pdb server then pdb
             else { pdb with server_prefixes := pdb.server_prefixes ++ [(server, xs)] })
    | .ok _ => .error "prefixes value is not a list"
  else
    let value : Except String Json :=
      if row.name == "times" then (jsonLoads row.value).map jsonDumps
      else if row.name == "commandsonly" then .ok (Json.bool (pyBool row.value))
      else .ok (jsonDumps row.value)
    match value with
    | .error e => .error e
    | .ok v =>
        .ok (if propertyExists pdb server row.name then pdb
             else { pdb with
                      server_property := pdb.server_property ++
                        [{ server_id := server, key := row.name, value := v }] })

/-- `import_server_properties`: fold `importProperty` over the legacy
`server_properties` rows in storage order; an error aborts the importer. -/
def import_server_properties (pdb : PropDB) : List LegacyProperty → Except String PropDB
  | [] => .ok pdb
  | row :: rest =>
    match importProperty pdb row with
    | .error e => .error e
    | .ok pdb' => import_server_properties pdb' rest

/-! ### import_events -/

/-- The `event` row inserted for a legacy event: `start` converted from
epoch seconds, `active`/`joinable` coerced through `bool(…)`, `reminder`
the re-encoded `4 - status`, `modified`/`created` defaulting to
`now()`. -/
def eventRowOf (now : Int) (eid : Nat) (ev : LegacyEvent) : EventRow :=
  { id := eid, user_id := ev.creator, server_id := ev.server, name := ev.name,
    description := ev.description, start := utcfromtimestamp ev.start,
    active := ev.active != 0, reminder := 4 - ev.status,
    joinable := ev.joinable != 0, slots := ev.slots, modified := now, created := now }

/-- The first loop of `import_events`: insert each legacy event
unconditionally, and accumulate its subscribers (`SELECT ?, user_id FROM
event_subscribers WHERE event_id = ?`) and participants (`SELECT ?, name
FROM event_participants LEFT JOIN chars ON id = char_id WHERE event_id =
?`, whose LEFT JOIN yields a NULL name when the legacy character row is
gone) tagged with the new event id. -/
def collectEvents (now : Int) (lg : LegacyDB) :
    EventDB → List LegacyEvent → EventDB × List (Nat × Int) × List (Nat × Option String)
  | edb, [] => (edb, [], [])
  | edb, ev :: rest =>
    let eid := edb.nextEventId
    let edb' := { edb with
        events := edb.events ++ [eventRowOf now eid ev],
        nextEventId := eid + 1 }
    let subs := (lg.event_subscribers.filter (fun s => s.event_id == ev.id)).map
        (fun s => (eid, s.user_id))
    let parts := (lg.event_participants.filter (fun p => p.event_id == ev.id)).map
        (fun p => (eid, (lg.chars.find? (fun ch => ch.id == p.char_id)).map
                          (fun ch => ch.name)))
    let r := collectEvents now lg edb' rest
    (r.1, subs ++ r.2.1, parts ++ r.2.2)

/-- Existence check backing `INSERT INTO event_subscriber … ON
CONFLICT(event_id, user_id) DO NOTHING`. -/
def subscriberExists (edb : EventDB) (eid : Nat) (uid : Int) : Bool :=
  edb.event_subscriber.any (fun s => s.1 == eid && s.2 == uid)

/-- The subscribers loop of `import_events`. -/
def importSubscribers : EventDB → List (Nat × Int) → EventDB
  | edb, [] => edb
  | edb, (eid, uid) :: rest =>
    importSubscribers
      (if subscriberExists edb eid uid then edb
       else { edb with event_subscriber := edb.event_subscriber ++ [(eid, uid)] }) rest

/-- Existence check backing `INSERT INTO event_participant … ON
CONFLICT(event_id, character_id) DO NOTHING`. -/
def participantExists (edb : EventDB) (eid cid : Nat) : Bool :=
  edb.event_participant.any (fun s => s.1 == eid && s.2 == cid)

/-- The participants loop of `import_events`: resolve the legacy
character name against the target `"character"` table (a NULL name, or a
name with no matching row, resolves to nothing and the row is silently
dropped by `continue`), then insert with conflict-skip. -/
def importParticipants (cdb : CharDB) : EventDB → List (Nat × Option String) → EventDB
  | edb, [] => edb
  | edb, (eid, nm) :: rest =>
    match nm.bind (fun n => lookupCharId cdb n) with
    | none => importParticipants cdb edb rest
    | some cid =>
      importParticipants cdb
        (if participantExists edb eid cid then edb
         else { edb with event_participant := edb.event_participant ++ [(eid, cid)] }) rest

/-- `import_events`: insert all events collecting tagged subscriber and
participant rows, then insert subscribers, then participants.  The
character table is only read (for name resolution), never written. -/
def import_events (now : Int) (lg : LegacyDB) (cdb : CharDB) (edb : EventDB) : EventDB :=
  let c := collectEvents now lg edb lg.events
  importParticipants cdb (importSubscribers c.1 c.2.1) c.2.2

/-! ### import_roles -/

/-- Existence check backing `INSERT INTO role_auto … ON
CONFLICT(server_id, role_id, rule) DO NOTHING`. -/
def autoRoleExists (rdb : RoleDB) (server role : Int) (rule : String) : Bool :=
  rdb.role_auto.any (fun r => r.1 == server && r.2.1 == role && r.2.2 == rule)

/-- Existence check backing `INSERT INTO role_joinable … ON
CONFLICT(server_id, role_id) DO NOTHING`. -/
def joinableRoleExists (rdb : RoleDB) (server role : Int) : Bool :=
  rdb.role_joinable.any (fun r => r.1 == server && r.2 == role)

/-- The auto-roles loop of `import_roles`. -/
def importAutoRoles : RoleDB → List LegacyAutoRole → RoleDB
  | rdb, [] => rdb
  | rdb, r :: rest =>
    importAutoRoles
      (if autoRoleExists rdb r.server_id r.role_id r.guild then rdb
       else { rdb with role_auto := rdb.role_auto ++ [(r.server_id, r.role_id, r.guild)] })
      rest

/-- The joinable-roles loop of `import_roles`. -/
def importJoinableRoles : RoleDB → List LegacyJoinableRole → RoleDB
  | rdb, [] => rdb
  | rdb, r :: rest =>
    importJoinableRoles
      (if joinableRoleExists rdb r.server_id r.role_id then rdb
       else { rdb with role_joinable := rdb.role_joinable ++ [(r.server_id, r.role_id)] })
      rest

/-- `import_roles`. -/
def import_roles (rdb : RoleDB) (lg : LegacyDB) : RoleDB :=
  importJoinableRoles (importAutoRoles rdb lg.auto_roles) lg.joinable_roles

/-- `import_legacy_db`: run the four importers in order — characters,
server properties, roles, events — over one target connection; a raised
error in the properties importer aborts the remaining importers. -/
def import_legacy_db (now : Int) (lg : LegacyDB) (db : DB) : Except String DB :=
  let c := import_characters now lg db.charDB
  match import_server_properties db.propDB lg.server_properties with
  | .error e => .error e
  | .ok pdb =>
    let rdb := import_roles db.roleDB lg
    let edb := import_events now lg c.1 db.eventDB
    .ok { charDB := c.1, propDB := pdb, eventDB := edb, roleDB := rdb }

/-! ### Helper lemmas -/

/-- `collectEvents` appends to the `event` table one row per legacy
event, whose `reminder` column is the re-encoded `4 - status`. -/
theorem collectEvents_events (now : Int) (lg : LegacyDB) :
    ∀ (evs : List LegacyEvent) (edb : EventDB),
      ∃ t, (collectEvents now lg edb evs).1.events = edb.events ++ t ∧
        t.map (fun e => e.reminder) = evs.map (fun ev => 4 - ev.status) := by
  intro evs
  induction evs with
  | nil => intro edb; exact ⟨[], by simp [collectEvents]⟩
  | cons ev rest ih =>
    intro edb
    obtain ⟨t, ht, hm⟩ := ih
      { edb with events := edb.events ++ [eventRowOf now edb.nextEventId ev],
                 nextEventId := edb.nextEventId + 1 }
    refine ⟨eventRowOf now edb.nextEventId ev :: t, ?_, ?_⟩
    · simpa [collectEvents] using ht
    · simp [hm, eventRowOf]

/-- `importSubscribers` never writes the `event` table. -/
theorem importSubscribers_events :
    ∀ (rows : List (Nat × Int)) (edb : EventDB),
      (importSubscribers edb rows).events = edb.events := by
  intro rows
  induction rows with
  | nil => intro edb; rfl
  | cons row rest ih =>
    intro edb
    obtain ⟨eid, uid⟩ := row
    by_cases h : subscriberExists edb eid uid <;> simp [importSubscribers, h, ih]

/-- `importParticipants` never writes the `event` table. -/
theorem importParticipants_events (cdb : CharDB) :
    ∀ (rows : List (Nat × Option String)) (edb : EventDB),
      (importParticipants cdb edb rows).events = edb.events := by
  intro rows
  induction rows with
  | nil => intro edb; rfl
  | cons row rest ih =>
    intro edb
    obtain ⟨eid, nm⟩ := row
    rcases h : nm.bind (fun n => lookupCharId cdb n) with _ | cid
    · simp [importParticipants, h, ih]
    · by_cases hp : participantExists edb eid cid <;>
        simp [importParticipants, h, hp, ih]

/-- The boolean death-existence check holds exactly when some stored
death row has the same character and the exact timestamp. -/
theorem deathExists_iff (cdb : CharDB) (c : Nat) (d : Int) :
    deathExists cdb c d = true ↔
      ∃ r ∈ cdb.deaths, r.character_id = c ∧ r.date = d := by
  simp only [deathExists, List.any_eq_true, Bool.and_eq_true, beq_iff_eq]
  constructor
  · rintro ⟨r, hr, hd, hc⟩; exact ⟨r, hr, hc, hd⟩
  · rintro ⟨r, hr, hc, hd⟩; exact ⟨r, hr, hd, hc⟩

/-- The boolean level-up-existence check holds exactly when some stored
level-up row of the same character lies within the inclusive symmetric
15-second window. -/
theorem levelupExists_iff (cdb : CharDB) (c : Nat) (d : Int) :
    levelupExists cdb c d = true ↔
      ∃ r ∈ cdb.levelups, r.character_id = c ∧
        max (d - r.date) (r.date - d) ≤ (15 : Int) := by
  simp [levelupExists, List.any_eq_true]

/-- Unfolding of the deaths loop at a duplicate head. -/
theorem importDeaths_cons_skip (cdb : CharDB) (d : TaggedDeath) (rest : List TaggedDeath)
    (h : deathExists cdb d.char_id (utcfromtimestamp d.date) = true) :
    importDeaths cdb (d :: rest) =
      ((importDeaths cdb rest).1, (importDeaths cdb rest).2 + 1) := by
  simp [importDeaths, h]

/-- Unfolding of the deaths loop at a fresh head. -/
theorem importDeaths_cons_insert (cdb : CharDB) (d : TaggedDeath) (rest : List TaggedDeath)
    (h : deathExists cdb d.char_id (utcfromtimestamp d.date) = false) :
    importDeaths cdb (d :: rest) = importDeaths (insertDeath cdb d) rest := by
  simp [importDeaths, h]

/-- Unfolding of the level-ups loop at a duplicate head. -/
theorem importLevelups_cons_skip (cdb : CharDB) (l : TaggedLevelup)
    (rest : List TaggedLevelup)
    (h : levelupExists cdb l.char_id (utcfromtimestamp l.date) = true) :
    importLevelups cdb (l :: rest) =
      ((importLevelups cdb rest).1, (importLevelups cdb rest).2 + 1) := by
  simp [importLevelups, h]

/-- Unfolding of the level-ups loop at a fresh head. -/
theorem importLevelups_cons_insert (cdb : CharDB) (l : TaggedLevelup)
    (rest : List TaggedLevelup)
    (h : levelupExists cdb l.char_id (utcfromtimestamp l.date) = false) :
    importLevelups cdb (l :: rest) = importLevelups (insertLevelup cdb l) rest := by
  simp [importLevelups, h]

/-- The deaths loop only appends: the other tables are untouched, the
serial counter is monotone, and all appended death rows and killer rows
carry ids at or above the incoming counter. -/
theorem importDeaths_state : ∀ (ds : List TaggedDeath) (cdb : CharDB),
    (importDeaths cdb ds).1.characters = cdb.characters ∧
    (importDeaths cdb ds).1.nextCharId = cdb.nextCharId ∧
    (importDeaths cdb ds).1.levelups = cdb.levelups ∧
    (importDeaths cdb ds).1.nextLevelupId = cdb.nextLevelupId ∧
    cdb.nextDeathId ≤ (importDeaths cdb ds).1.nextDeathId ∧
    ∃ t u, (importDeaths cdb ds).1.deaths = cdb.deaths ++ t ∧
      (importDeaths cdb ds).1.killers = cdb.killers ++ u ∧
      (∀ r ∈ t, cdb.nextDeathId ≤ r.id) ∧
      (∀ k ∈ u, cdb.nextDeathId ≤ k.death_id)
  | [], cdb => by
    refine ⟨rfl, rfl, rfl, rfl, le_refl _, [], [],
      by simp [importDeaths], by simp [importDeaths], by simp, by simp⟩
  | d :: rest, cdb => by
    by_cases h : deathExists cdb d.char_id (utcfromtimestamp d.date)
    · rw [importDeaths_cons_skip cdb d rest h]
      exact importDeaths_state rest cdb
    · rw [importDeaths_cons_insert cdb d rest (by simpa using h)]
      obtain ⟨h1, h2, h3, h4, h5, t, u, ht, hu, htb, hub⟩ :=
        importDeaths_state rest (insertDeath cdb d)
      refine ⟨h1, h2, h3, h4, le_trans (Nat.le_succ _) h5,
        { id := cdb.nextDeathId, character_id := d.char_id, level := d.level,
          date := utcfromtimestamp d.date } :: t,
        { death_id := cdb.nextDeathId, position := 0, name := d.killer,
          player := d.byplayer == 1 } :: u, ?_, ?_, ?_, ?_⟩
      · simpa [insertDeath] using ht
      · simpa [insertDeath] using hu
      · intro r hr
        rcases List.mem_cons.1 hr with hr | hr
        · subst hr; exact le_refl _
        · exact le_trans (Nat.le_succ _) (htb r hr)
      · intro k hk
        rcases List.mem_cons.1 hk with hk | hk
        · subst hk; exact le_refl _
        · exact le_trans (Nat.le_succ _) (hub k hk)

/-- The level-ups loop only appends: the other tables are untouched. -/
theorem importLevelups_state : ∀ (ls : List TaggedLevelup) (cdb : CharDB),
    (importLevelups cdb ls).1.characters = cdb.characters ∧
    (importLevelups cdb ls).1.nextCharId = cdb.nextCharId ∧
    (importLevelups cdb ls).1.deaths = cdb.deaths ∧
    (importLevelups cdb ls).1.nextDeathId = cdb.nextDeathId ∧
    (importLevelups cdb ls).1.killers = cdb.killers ∧
    ∃ t, (importLevelups cdb ls).1.levelups = cdb.levelups ++ t
  | [], cdb => ⟨rfl, rfl, rfl, rfl, rfl, [], by simp [importLevelups]⟩
  | l :: rest, cdb => by
    by_cases h : levelupExists cdb l.char_id (utcfromtimestamp l.date)
    · rw [importLevelups_cons_skip cdb l rest h]
      exact importLevelups_state rest cdb
    · rw [importLevelups_cons_insert cdb l rest (by simpa using h)]
      obtain ⟨h1, h2, h3, h4, h5, t, ht⟩ := importLevelups_state rest (insertLevelup cdb l)
      exact ⟨h1, h2, h3, h4, h5,
        { id := cdb.nextLevelupId, character_id := l.char_id, level := l.level,
          date := utcfromtimestamp l.date } :: t, by simpa [insertLevelup] using ht⟩

/-- Every death candidate is matched in the final table: either it was
inserted, or a row with the same character and exact timestamp already
blocked it and persists. -/
theorem importDeaths_covers : ∀ (ds : List TaggedDeath) (cdb : CharDB),
    ∀ d ∈ ds, ∃ r ∈ (importDeaths cdb ds).1.deaths,
      r.character_id = d.char_id ∧ r.date = utcfromtimestamp d.date
  | [], _ => by simp
  | d :: rest, cdb => by
    intro x hx
    by_cases h : deathExists cdb d.char_id (utcfromtimestamp d.date)
    · rw [importDeaths_cons_skip cdb d rest h]
      rcases List.mem_cons.1 hx with hx | hx
      · subst hx
        obtain ⟨r, hr, hrc, hrd⟩ := (deathExists_iff cdb x.char_id _).1 h
        obtain ⟨_, _, _, _, _, t, _, ht, _, _, _⟩ := importDeaths_state rest cdb
        exact ⟨r, by rw [ht]; exact List.mem_append_left t hr, hrc, hrd⟩
      · exact importDeaths_covers rest cdb x hx
    · rw [importDeaths_cons_insert cdb d rest (by simpa using h)]
      rcases List.mem_cons.1 hx with hx | hx
      · subst hx
        obtain ⟨_, _, _, _, _, t, _, ht, _, _, _⟩ :=
          importDeaths_state rest (insertDeath cdb x)
        refine ⟨{ id := cdb.nextDeathId, character_id := x.char_id, level := x.level,
                  date := utcfromtimestamp x.date }, ?_, rfl, rfl⟩
        rw [ht]
        exact List.mem_append_left t (by simp [insertDeath])
      · exact importDeaths_covers rest (insertDeath cdb d) x hx

/-- Every level-up candidate is matched in the final table by a row of
the same character within the 15-second window: either it was inserted
(distance 0), or the blocking row persists. -/
theorem importLevelups_covers : ∀ (ls : List TaggedLevelup) (cdb : CharDB),
    ∀ l ∈ ls, ∃ r ∈ (importLevelups cdb ls).1.levelups,
      r.character_id = l.char_id ∧
        max (utcfromtimestamp l.date - r.date) (r.date - utcfromtimestamp l.date) ≤ (15 : Int)
  | [], _ => by simp
  | l :: rest, cdb => by
    intro x hx
    by_cases h : levelupExists cdb l.char_id (utcfromtimestamp l.date)
    · rw [importLevelups_cons_skip cdb l rest h]
      rcases List.mem_cons.1 hx with hx | hx
      · subst hx
        obtain ⟨r, hr, hrc, hrd⟩ := (levelupExists_iff cdb x.char_id _).1 h
        obtain ⟨_, _, _, _, _, t, ht⟩ := importLevelups_state rest cdb
        exact ⟨r, by rw [ht]; exact List.mem_append_left t hr, hrc, hrd⟩
      · exact importLevelups_covers rest cdb x hx
    · rw [importLevelups_cons_insert cdb l rest (by simpa using h)]
      rcases List.mem_cons.1 hx with hx | hx
      · subst hx
        obtain ⟨_, _, _, _, _, t, ht⟩ := importLevelups_state rest (insertLevelup cdb x)
        refine ⟨{ id := cdb.nextLevelupId, character_id := x.char_id, level := x.level,
                  date := utcfromtimestamp x.date }, ?_, rfl, by simp⟩
        rw [ht]
        exact List.mem_append_left t (by simp [insertLevelup])
      · exact importLevelups_covers rest (insertLevelup cdb l) x hx

/-- When every death candidate is already blocked, the deaths loop is a
no-op that counts every candidate as a duplicate. -/
theorem importDeaths_all_dup : ∀ (ds : List TaggedDeath) (cdb : CharDB),
    (∀ d ∈ ds, deathExists cdb d.char_id (utcfromtimestamp d.date) = true) →
    importDeaths cdb ds = (cdb, ds.length)
  | [], cdb => by intro _; rfl
  | d :: rest, cdb => by
    intro h
    rw [importDeaths_cons_skip cdb d rest (h d (List.mem_cons_self d rest)),
      importDeaths_all_dup rest cdb (fun x hx => h x (List.mem_cons_of_mem d hx))]
    rfl

/-- When every level-up candidate is already blocked, the level-ups loop
is a no-op that counts every candidate as a duplicate. -/
theorem importLevelups_all_dup : ∀ (ls : List TaggedLevelup) (cdb : CharDB),
    (∀ l ∈ ls, levelupExists cdb l.char_id (utcfromtimestamp l.date) = true) →
    importLevelups cdb ls = (cdb, ls.length)
  | [], cdb => by intro _; rfl
  | l :: rest, cdb => by
    intro h
    rw [importLevelups_cons_skip cdb l rest (h l (List.mem_cons_self l rest)),
      importLevelups_all_dup rest cdb (fun x hx => h x (List.mem_cons_of_mem l hx))]
    rfl

/-- The conflict-update of the upsert (name echoed to itself, `modified`
refreshed by the trigger) does not change the `(id, name)` view of the
character table. -/
theorem touch_preserves_idname (l : List Character) (now : Int) (n : String) :
    (l.map (fun x => if x.name == n then { x with name := n, modified := now } else x)).map
        (fun c => (c.id, c.name)) = l.map (fun c => (c.id, c.name)) := by
  rw [List.map_map]
  apply List.map_congr_left
  intro x _
  by_cases h : x.name == n
  · simp only [Function.comp_apply, if_pos h]
    rw [eq_of_beq h]
  · simp only [Function.comp_apply, if_neg h]

/-- The id returned by a name lookup depends only on the `(id, name)`
view of the character table. -/
theorem find?_name_congr : ∀ (l l' : List Character),
    l.map (fun c => (c.id, c.name)) = l'.map (fun c => (c.id, c.name)) →
    ∀ n : String, (l.find? (fun r => r.name == n)).map (fun r => r.id) =
      (l'.find? (fun r => r.name == n)).map (fun r => r.id)
  | [], [], _, n => rfl
  | [], x :: xs, h, n => by simp at h
  | x :: xs, [], h, n => by simp at h
  | x :: xs, y :: ys, h, n => by
    simp only [List.map_cons, List.cons.injEq, Prod.mk.injEq] at h
    obtain ⟨⟨hid, hname⟩, hrest⟩ := h
    by_cases hp : x.name == n
    · rw [List.find?_cons_of_pos xs hp,
        List.find?_cons_of_pos ys (show (y.name == n) = true by rw [← hname]; exact hp)]
      simp [hid]
    · rw [List.find?_cons_of_neg xs hp,
        List.find?_cons_of_neg ys (show ¬(y.name == n) = true by rw [← hname]; exact hp)]
      exact find?_name_congr xs ys hrest n

/-- `lookupCharId` depends only on the `(id, name)` view. -/
theorem lookupCharId_congr (cdb cdb' : CharDB)
    (h : cdb.characters.map (fun c => (c.id, c.name)) =
      cdb'.characters.map (fun c => (c.id, c.name))) (n : String) :
    lookupCharId cdb n = lookupCharId cdb' n :=
  find?_name_congr cdb.characters cdb'.characters h n

/-- After an upsert, looking the character's name up again yields exactly
the id the upsert returned: the upsert never fails, whether it inserted
or hit the name conflict. -/
theorem lookup_upsert_self (now : Int) (cdb : CharDB) (ch : LegacyChar) :
    lookupCharId (upsertCharacter now cdb ch).2 ch.name =
      some (upsertCharacter now cdb ch).1 := by
  rcases h : lookupCharRow cdb ch.name with _ | r
  · unfold lookupCharRow at h
    simp only [upsertCharacter, lookupCharId, lookupCharRow, h]
    rw [List.find?_append, h]
    simp
  · unfold lookupCharRow at h
    simp only [upsertCharacter, lookupCharId, lookupCharRow, h]
    rw [find?_name_congr _ cdb.characters
      (touch_preserves_idname cdb.characters now ch.name) ch.name, h]
    rfl

/-- Interior death rows and killer rows get fresh ids on insertion: each
new death carries one new killer row referencing it, and under the serial
id discipline that killer row is the only one referencing it, ever. -/
theorem importDeaths_killer_unique : ∀ (ds : List TaggedDeath) (cdb : CharDB),
    (∀ r ∈ cdb.deaths, r.id < cdb.nextDeathId) →
    (∀ k ∈ cdb.killers, k.death_id < cdb.nextDeathId) →
    ∀ rrow, rrow ∈ (importDeaths cdb ds).1.deaths → rrow ∉ cdb.deaths →
      ((importDeaths cdb ds).1.killers.filter (fun k => k.death_id == rrow.id)).length = 1
  | [], cdb => by
    intro _ _ rrow hin hnot
    exact absurd hin hnot
  | d :: rest, cdb => by
    intro hd hk rrow hin hnot
    by_cases h : deathExists cdb d.char_id (utcfromtimestamp d.date)
    · rw [importDeaths_cons_skip cdb d rest h] at hin ⊢
      exact importDeaths_killer_unique rest cdb hd hk rrow hin hnot
    · have hf : deathExists cdb d.char_id (utcfromtimestamp d.date) = false := by
        simpa using h
      rw [importDeaths_cons_insert cdb d rest hf] at hin ⊢
      by_cases hr : rrow = (⟨cdb.nextDeathId, d.char_id, d.level, utcfromtimestamp d.date⟩ : CharacterDeath)
      · subst hr
        obtain ⟨_, _, _, _, _, t, u, ht, hu, htb, hub⟩ :=
          importDeaths_state rest (insertDeath cdb d)
        rw [hu, show (insertDeath cdb d).killers = cdb.killers ++
            [(⟨cdb.nextDeathId, 0, d.killer, d.byplayer == 1⟩ : DeathKiller)] from rfl,
          List.append_assoc, List.filter_append, List.length_append,
          List.filter_append, List.length_append]
        have h1 : cdb.killers.filter (fun k => k.death_id == cdb.nextDeathId) = [] := by
          refine List.filter_eq_nil_iff.2 (fun k hkm => ?_)
          simpa using Nat.ne_of_lt (hk k hkm)
        have h2 : u.filter (fun k => k.death_id == cdb.nextDeathId) = [] := by
          refine List.filter_eq_nil_iff.2 (fun k hkm => ?_)
          have := hub k hkm
          simp only [insertDeath] at this
          simpa using (Nat.ne_of_lt (Nat.lt_of_succ_le this)).symm
        simp [h1, h2]
      · have hnot' : rrow ∉ (insertDeath cdb d).deaths := by
          intro hc
          simp only [insertDeath] at hc
          rcases List.mem_append.1 hc with hc | hc
          · exact hnot hc
          · exact hr (List.mem_singleton.1 hc)
        refine importDeaths_killer_unique rest (insertDeath cdb d) ?_ ?_ rrow hin hnot'
        · intro r hrm
          simp only [insertDeath] at hrm
          rcases List.mem_append.1 hrm with hrm | hrm
          · exact Nat.lt_trans (hd r hrm) (Nat.lt_succ_self _)
          · rw [List.mem_singleton.1 hrm]
            exact Nat.lt_succ_self _
        · intro k hkm
          simp only [insertDeath] at hkm
          rcases List.mem_append.1 hkm with hkm | hkm
          · exact Nat.lt_trans (hk k hkm) (Nat.lt_succ_self _)
          · rw [List.mem_singleton.1 hkm]
            exact Nat.lt_succ_self _

/-- Unfolding of `collectChars` at a cons. -/
theorem collectChars_cons (now : Int) (lg : LegacyDB) (cdb : CharDB) (ch : LegacyChar)
    (rest : List LegacyChar) :
    collectChars now lg cdb (ch :: rest) =
      ((collectChars now lg (upsertCharacter now cdb ch).2 rest).1,
       charLevelups lg (upsertCharacter now cdb ch).1 ch.id ++
         (collectChars now lg (upsertCharacter now cdb ch).2 rest).2.1,
       charDeaths lg (upsertCharacter now cdb ch).1 ch.id ++
         (collectChars now lg (upsertCharacter now cdb ch).2 rest).2.2) := rfl

/-- The upsert touches only the character table and its serial counter. -/
theorem upsert_frame (now : Int) (cdb : CharDB) (ch : LegacyChar) :
    (upsertCharacter now cdb ch).2.deaths = cdb.deaths ∧
    (upsertCharacter now cdb ch).2.nextDeathId = cdb.nextDeathId ∧
    (upsertCharacter now cdb ch).2.killers = cdb.killers ∧
    (upsertCharacter now cdb ch).2.levelups = cdb.levelups ∧
    (upsertCharacter now cdb ch).2.nextLevelupId = cdb.nextLevelupId := by
  rcases h : lookupCharRow cdb ch.name with _ | r <;>
    simp [upsertCharacter, h]

/-- The character-collection loop touches only the character table and
its serial counter. -/
theorem collectChars_frame (now : Int) (lg : LegacyDB) :
    ∀ (chs : List LegacyChar) (cdb : CharDB),
    (collectChars now lg cdb chs).1.deaths = cdb.deaths ∧
    (collectChars now lg cdb chs).1.nextDeathId = cdb.nextDeathId ∧
    (collectChars now lg cdb chs).1.killers = cdb.killers ∧
    (collectChars now lg cdb chs).1.levelups = cdb.levelups ∧
    (collectChars now lg cdb chs).1.nextLevelupId = cdb.nextLevelupId
  | [], cdb => ⟨rfl, rfl, rfl, rfl, rfl⟩
  | ch :: rest, cdb => by
    rw [collectChars_cons]
    obtain ⟨h1, h2, h3, h4, h5⟩ :=
      collectChars_frame now lg rest (upsertCharacter now cdb ch).2
    obtain ⟨g1, g2, g3, g4, g5⟩ := upsert_frame now cdb ch
    exact ⟨h1.trans g1, h2.trans g2, h3.trans g3, h4.trans g4, h5.trans g5⟩

/-- A lookup that already resolves keeps resolving to the same id after
any further upsert. -/
theorem upsert_preserves_lookup (now : Int) (cdb : CharDB) (ch : LegacyChar)
    (n : String) (i : Nat) (h : lookupCharId cdb n = some i) :
    lookupCharId (upsertCharacter now cdb ch).2 n = some i := by
  rcases hl : lookupCharRow cdb ch.name with _ | r
  · unfold lookupCharRow at hl
    unfold lookupCharId lookupCharRow at h
    simp only [upsertCharacter, lookupCharId, lookupCharRow, hl]
    rw [List.find?_append]
    rcases hf : cdb.characters.find? (fun r => r.name == n) with _ | row
    · rw [hf] at h; exact absurd h (by simp)
    · rw [hf] at h
      rw [hf]
      simpa using h
  · unfold lookupCharRow at hl
    unfold lookupCharId lookupCharRow at h
    simp only [upsertCharacter, lookupCharId, lookupCharRow, hl]
    rw [find?_name_congr _ cdb.characters
      (touch_preserves_idname cdb.characters now ch.name) n]
    exact h

/-- A lookup that already resolves keeps resolving to the same id
through the whole character-collection loop. -/
theorem lookup_collect_preserved (now : Int) (lg : LegacyDB) :
    ∀ (chs : List LegacyChar) (cdb : CharDB) (n : String) (i : Nat),
    lookupCharId cdb n = some i →
    lookupCharId (collectChars now lg cdb chs).1 n = some i
  | [], cdb, n, i, h => h
  | ch :: rest, cdb, n, i, h => by
    rw [collectChars_cons]
    exact lookup_collect_preserved now lg rest (upsertCharacter now cdb ch).2 n i
      (upsert_preserves_lookup now cdb ch n i h)

/-- A resolving `lookupCharId` comes from a found row bearing that id. -/
theorem lookupCharId_some_row (cdb : CharDB) (n : String) (i : Nat)
    (h : lookupCharId cdb n = some i) :
    ∃ row, lookupCharRow cdb n = some row ∧ row.id = i := by
  unfold lookupCharId at h
  rcases hf : lookupCharRow cdb n with _ | row
  · rw [hf] at h; exact absurd h (by simp)
  · rw [hf] at h
    exact ⟨row, rfl, by simpa using h⟩

/-- The conflict-update also preserves the name column alone. -/
theorem touch_preserves_names (l : List Character) (now : Int) (n : String) :
    (l.map (fun x => if x.name == n then { x with name := n, modified := now } else x)).map
        (fun c => c.name) = l.map (fun c => c.name) := by
  have h := congrArg (List.map Prod.snd) (touch_preserves_idname l now n)
  simpa [List.map_map, Function.comp] using h

/-- `lookupCharId` only reads the character table. -/
theorem lookupCharId_char_eq {cdb cdb' : CharDB} (h : cdb.characters = cdb'.characters)
    (n : String) : lookupCharId cdb n = lookupCharId cdb' n := by
  unfold lookupCharId lookupCharRow
  rw [h]

/-- The upsert preserves distinctness of stored character names. -/
theorem upsert_names_nodup (now : Int) (cdb : CharDB) (ch : LegacyChar)
    (h : (cdb.characters.map (fun c => c.name)).Nodup) :
    ((upsertCharacter now cdb ch).2.characters.map (fun c => c.name)).Nodup := by
  rcases hl : lookupCharRow cdb ch.name with _ | r
  · unfold lookupCharRow at hl
    simp only [upsertCharacter, lookupCharRow, hl]
    have hnot : ch.name ∉ cdb.characters.map (fun c => c.name) := by
      intro hc
      rcases List.mem_map.1 hc with ⟨x, hx, hxn⟩
      have hne := List.find?_eq_none.1 hl x hx
      simp only [Bool.not_eq_true, beq_eq_false_iff_ne, ne_eq] at hne
      exact hne hxn
    simp [List.nodup_append, h, hnot]
  · unfold lookupCharRow at hl
    simp only [upsertCharacter, lookupCharRow, hl]
    rw [touch_preserves_names]
    exact h

/-- The character-collection loop preserves distinctness of stored
character names. -/
theorem collect_names_nodup (now : Int) (lg : LegacyDB) :
    ∀ (chs : List LegacyChar) (cdb : CharDB),
    (cdb.characters.map (fun c => c.name)).Nodup →
    ((collectChars now lg cdb chs).1.characters.map (fun c => c.name)).Nodup
  | [], cdb, h => h
  | ch :: rest, cdb, h => by
    rw [collectChars_cons]
    exact collect_names_nodup now lg rest (upsertCharacter now cdb ch).2
      (upsert_names_nodup now cdb ch h)

/-- Under distinct names, a name that resolves at all matches exactly
one row. -/
theorem filter_name_length_one : ∀ (l : List Character) (n : String),
    (l.map (fun c => c.name)).Nodup →
    (l.find? (fun r => r.name == n)).isSome →
    (l.filter (fun r => r.name == n)).length = 1
  | [], n => by simp
  | x :: xs, n => by
    intro hnd hs
    by_cases hx : x.name == n
    · have hrest : xs.filter (fun r => r.name == n) = [] := by
        refine List.filter_eq_nil_iff.2 (fun y hy => ?_)
        simp only [List.map_cons, List.nodup_cons] at hnd
        intro hyb
        apply hnd.1
        have hyx : y.name = x.name := (eq_of_beq hyb).trans (eq_of_beq hx).symm
        exact hyx ▸ List.mem_map_of_mem (fun c => c.name) hy
      simp [List.filter_cons, hx, hrest]
    · rw [show List.find? (fun r => r.name == n) (x :: xs) =
          List.find? (fun r => r.name == n) xs from List.find?_cons_of_neg xs hx] at hs
      simp only [List.map_cons, List.nodup_cons] at hnd
      have hlen := filter_name_length_one xs n hnd.2 hs
      simpa [List.filter_cons, hx] using hlen

/-- Every processed legacy character resolves, at the end of the
collection loop, to one id `i` determined by its name, and all its
legacy deaths and level-ups enter the tagged batches attributed to
exactly that id. -/
theorem collect_resolves (now : Int) (lg : LegacyDB) :
    ∀ (chs : List LegacyChar) (cdb : CharDB), ∀ ch ∈ chs,
      ∃ i, lookupCharId (collectChars now lg cdb chs).1 ch.name = some i ∧
        (∀ ld ∈ lg.char_deaths, ld.char_id = ch.id →
          ({ char_id := i, level := ld.level, date := ld.date, killer := ld.killer,
             byplayer := ld.byplayer } : TaggedDeath) ∈ (collectChars now lg cdb chs).2.2) ∧
        (∀ lu ∈ lg.char_levelups, lu.char_id = ch.id →
          ({ char_id := i, level := lu.level, date := lu.date } : TaggedLevelup) ∈
            (collectChars now lg cdb chs).2.1)
  | [], cdb => by simp
  | ch' :: rest, cdb => by
    intro x hx
    rcases List.mem_cons.1 hx with hx | hx
    · subst hx
      refine ⟨(upsertCharacter now cdb x).1, ?_, ?_, ?_⟩
      · rw [collectChars_cons]
        exact lookup_collect_preserved now lg rest (upsertCharacter now cdb x).2 x.name
          (upsertCharacter now cdb x).1 (lookup_upsert_self now cdb x)
      · intro ld hld hldc
        rw [collectChars_cons]
        refine List.mem_append_left _ ?_
        unfold charDeaths
        refine List.mem_map.2 ⟨ld, ?_, rfl⟩
        exact List.mem_filter.2 ⟨hld, by simp [hldc]⟩
      · intro lu hlu hluc
        rw [collectChars_cons]
        refine List.mem_append_left _ ?_
        unfold charLevelups
        refine List.mem_map.2 ⟨lu, ?_, rfl⟩
        rw [List.mem_insertionSort]
        exact List.mem_filter.2 ⟨hlu, by simp [hluc]⟩
    · obtain ⟨i, h1, h2, h3⟩ :=
        collect_resolves now lg rest (upsertCharacter now cdb ch').2 x hx
      refine ⟨i, ?_, ?_, ?_⟩
      · rw [collectChars_cons]; exact h1
      · intro ld hld hldc
        rw [collectChars_cons]
        exact List.mem_append_right _ (h2 ld hld hldc)
      · intro lu hlu hluc
        rw [collectChars_cons]
        exact List.mem_append_right _ (h3 lu hlu hluc)

/-- Unfolding of `import_characters` into its three phases. -/
theorem import_characters_def (now : Int) (lg : LegacyDB) (cdb : CharDB) :
    import_characters now lg cdb =
      ((importLevelups
          (importDeaths
            (collectChars now lg cdb (List.insertionSort (fun a b => a.id ≤ b.id) lg.chars)).1
            (List.insertionSort (fun a b => a.date ≤ b.date)
              (collectChars now lg cdb
                (List.insertionSort (fun a b => a.id ≤ b.id) lg.chars)).2.2)).1
          (List.insertionSort (fun a b => a.date ≤ b.date)
            (collectChars now lg cdb
              (List.insertionSort (fun a b => a.id ≤ b.id) lg.chars)).2.1)).1,
       (importDeaths
          (collectChars now lg cdb (List.insertionSort (fun a b => a.id ≤ b.id) lg.chars)).1
          (List.insertionSort (fun a b => a.date ≤ b.date)
            (collectChars now lg cdb
              (List.insertionSort (fun a b => a.id ≤ b.id) lg.chars)).2.2)).2,
       (importLevelups
          (importDeaths
            (collectChars now lg cdb (List.insertionSort (fun a b => a.id ≤ b.id) lg.chars)).1
            (List.insertionSort (fun a b => a.date ≤ b.date)
              (collectChars now lg cdb
                (List.insertionSort (fun a b => a.id ≤ b.id) lg.chars)).2.2)).1
          (List.insertionSort (fun a b => a.date ≤ b.date)
            (collectChars now lg cdb
              (List.insertionSort (fun a b => a.id ≤ b.id) lg.chars)).2.1)).2) := rfl

/-- The character table (hence name lookup) after the whole of
`import_characters` is the one the collection loop produced. -/
theorem import_characters_characters (now : Int) (lg : LegacyDB) (cdb : CharDB) :
    (import_characters now lg cdb).1.characters =
      (collectChars now lg cdb
        (List.insertionSort (fun a b => a.id ≤ b.id) lg.chars)).1.characters := by
  rw [import_characters_def]
  obtain ⟨hl1, _, _, _, _, _⟩ := importLevelups_state
    (List.insertionSort (fun a b => a.date ≤ b.date)
      (collectChars now lg cdb (List.insertionSort (fun a b => a.id ≤ b.id) lg.chars)).2.1)
    (importDeaths
      (collectChars now lg cdb (List.insertionSort (fun a b => a.id ≤ b.id) lg.chars)).1
      (List.insertionSort (fun a b => a.date ≤ b.date)
        (collectChars now lg cdb (List.insertionSort (fun a b => a.id ≤ b.id) lg.chars)).2.2)).1
  obtain ⟨hd1, _, _, _, _, _⟩ := importDeaths_state
    (List.insertionSort (fun a b => a.date ≤ b.date)
      (collectChars now lg cdb (List.insertionSort (fun a b => a.id ≤ b.id) lg.chars)).2.2)
    (collectChars now lg cdb (List.insertionSort (fun a b => a.id ≤ b.id) lg.chars)).1
  exact hl1.trans hd1

/-! ### C2 — same-named legacy characters collapse to one row -/

/-- Legacy store with two same-named characters, each with a death and a
level-up. -/
def lgTwins : LegacyDB :=
  { chars := [{ id := 1, user_id := 100, name := "Alice", level := some 10,
                vocation := none, world := none, guild := none },
              { id := 2, user_id := 200, name := "Alice", level := some 12,
                vocation := none, world := none, guild := none }],
    char_levelups := [{ char_id := 2, level := some 12, date := 500 }],
    char_deaths := [{ char_id := 1, level := some 9, date := 100, killer := "Rat",
                      byplayer := 0 },
                    { char_id := 2, level := some 11, date := 600, killer := "Orc",
                      byplayer := 1 }],
    server_properties := [], events := [], event_subscribers := [],
    event_participants := [], auto_roles := [], joinable_roles := [] }

/-- C2: starting from a target store with distinct character names,
the import leaves names distinct; every legacy character's name
resolves to one id `i` — so all legacy characters sharing a name
resolve to the same row, exactly one row bears that name — and every
legacy death and level-up of such a character enters the tagged
batches attributed to `i`.  The resolution is the same `lookupCharId`
the event-participant import uses, so participant lookups resolve to
that row as well. -/
theorem import_characters_unifies_names (now : Int) (lg : LegacyDB) (cdb : CharDB)
    (h : (cdb.characters.map (fun c => c.name)).Nodup) :
    (((import_characters now lg cdb).1.characters.map (fun c => c.name)).Nodup) ∧
    ∀ ch ∈ lg.chars, ∃ i,
      lookupCharId (import_characters now lg cdb).1 ch.name = some i ∧
      (((import_characters now lg cdb).1.characters.filter
          (fun r => r.name == ch.name)).length = 1) ∧
      (∀ ld ∈ lg.char_deaths, ld.char_id = ch.id →
        ({ char_id := i, level := ld.level, date := ld.date, killer := ld.killer,
           byplayer := ld.byplayer } : TaggedDeath) ∈
          (collectChars now lg cdb
            (List.insertionSort (fun a b => a.id ≤ b.id) lg.chars)).2.2) ∧
      (∀ lu ∈ lg.char_levelups, lu.char_id = ch.id →
        ({ char_id := i, level := lu.level, date := lu.date } : TaggedLevelup) ∈
          (collectChars now lg cdb
            (List.insertionSort (fun a b => a.id ≤ b.id) lg.chars)).2.1) := by
  have hchars := import_characters_characters now lg cdb
  have hnodup : (((collectChars now lg cdb
      (List.insertionSort (fun a b => a.id ≤ b.id) lg.chars)).1.characters.map
        (fun c => c.name)).Nodup) :=
    collect_names_nodup now lg (List.insertionSort (fun a b => a.id ≤ b.id) lg.chars) cdb h
  refine ⟨by rw [hchars]; exact hnodup, ?_⟩
  intro ch hch
  obtain ⟨i, hlook, hd, hl⟩ := collect_resolves now lg
    (List.insertionSort (fun a b => a.id ≤ b.id) lg.chars) cdb ch
    ((List.mem_insertionSort _).2 hch)
  refine ⟨i, ?_, ?_, hd, hl⟩
  · rw [lookupCharId_char_eq hchars ch.name]
    exact hlook
  · rw [hchars]
    refine filter_name_length_one _ ch.name hnodup ?_
    unfold lookupCharId lookupCharRow at hlook
    rcases hf : (collectChars now lg cdb
        (List.insertionSort (fun a b => a.id ≤ b.id) lg.chars)).1.characters.find?
        (fun r => r.name == ch.name) with _ | row
    · rw [hf] at hlook
      exact absurd hlook (by simp)
    · rw [hf]
      rfl

/-- Witness for C2: two same-named legacy characters imported into an
empty store. -/
theorem import_characters_unifies_names_witness :
    (((import_characters 0 lgTwins ⟨[], 1, [], 1, [], [], 1⟩).1.characters.map
        (fun c => c.name)).Nodup) ∧
    ∀ ch ∈ lgTwins.chars, ∃ i,
      lookupCharId (import_characters 0 lgTwins ⟨[], 1, [], 1, [], [], 1⟩).1 ch.name =
        some i ∧
      (((import_characters 0 lgTwins ⟨[], 1, [], 1, [], [], 1⟩).1.characters.filter
          (fun r => r.name == ch.name)).length = 1) ∧
      (∀ ld ∈ lgTwins.char_deaths, ld.char_id = ch.id →
        ({ char_id := i, level := ld.level, date := ld.date, killer := ld.killer,
           byplayer := ld.byplayer } : TaggedDeath) ∈
          (collectChars 0 lgTwins ⟨[], 1, [], 1, [], [], 1⟩
            (List.insertionSort (fun a b => a.id ≤ b.id) lgTwins.chars)).2.2) ∧
      (∀ lu ∈ lgTwins.char_levelups, lu.char_id = ch.id →
        ({ char_id := i, level := lu.level, date := lu.date } : TaggedLevelup) ∈
          (collectChars 0 lgTwins ⟨[], 1, [], 1, [], [], 1⟩
            (List.insertionSort (fun a b => a.id ≤ b.id) lgTwins.chars)).2.1) :=
  import_characters_unifies_names 0 lgTwins ⟨[], 1, [], 1, [], [], 1⟩ (by decide)

/-- Unfolding of the upsert when the name is already present. -/
theorem upsertCharacter_conflict (now : Int) (cdb : CharDB) (ch : LegacyChar)
    (r : Character) (h : lookupCharRow cdb ch.name = some r) :
    upsertCharacter now cdb ch =
      (r.id,
       { cdb with
           characters := cdb.characters.map
             (fun x => if x.name == ch.name then { x with name := ch.name, modified := now }
                       else x) }) := by
  simp only [upsertCharacter, h]

/-- The upsert's returned id and its effect on the `(id, name)` view and
the serial counter depend only on that view and counter (not on the
other columns nor on the clock). -/
theorem upsert_congr (now now' : Int) (cdb cdb' : CharDB) (ch : LegacyChar)
    (hv : cdb.characters.map (fun c => (c.id, c.name)) =
      cdb'.characters.map (fun c => (c.id, c.name)))
    (hn : cdb.nextCharId = cdb'.nextCharId) :
    (upsertCharacter now cdb ch).1 = (upsertCharacter now' cdb' ch).1 ∧
    (upsertCharacter now cdb ch).2.characters.map (fun c => (c.id, c.name)) =
      (upsertCharacter now' cdb' ch).2.characters.map (fun c => (c.id, c.name)) ∧
    (upsertCharacter now cdb ch).2.nextCharId =
      (upsertCharacter now' cdb' ch).2.nextCharId := by
  have hmap := find?_name_congr cdb.characters cdb'.characters hv ch.name
  rcases hf : cdb.characters.find? (fun r => r.name == ch.name) with _ | r <;>
    rcases hf' : cdb'.characters.find? (fun r => r.name == ch.name) with _ | r'
  · simp only [upsertCharacter, lookupCharRow, hf, hf']
    refine ⟨hn, ?_, by simp [hn]⟩
    simp [List.map_append, hv, hn]
  · rw [hf, hf'] at hmap
    exact absurd hmap (by simp)
  · rw [hf, hf'] at hmap
    exact absurd hmap (by simp)
  · rw [hf, hf'] at hmap
    simp only [Option.map_some', Option.some.injEq] at hmap
    simp only [upsertCharacter, lookupCharRow, hf, hf']
    refine ⟨hmap, ?_, hn⟩
    rw [touch_preserves_idname, touch_preserves_idname]
    exact hv

/-- The collection loop's tagged outputs and its effect on the
`(id, name)` view and the serial counter depend only on that view and
counter. -/
theorem collectChars_congr (lg : LegacyDB) :
    ∀ (chs : List LegacyChar) (now now' : Int) (cdb cdb' : CharDB),
    cdb.characters.map (fun c => (c.id, c.name)) =
      cdb'.characters.map (fun c => (c.id, c.name)) →
    cdb.nextCharId = cdb'.nextCharId →
    (collectChars now lg cdb chs).2 = (collectChars now' lg cdb' chs).2 ∧
    (collectChars now lg cdb chs).1.characters.map (fun c => (c.id, c.name)) =
      (collectChars now' lg cdb' chs).1.characters.map (fun c => (c.id, c.name)) ∧
    (collectChars now lg cdb chs).1.nextCharId =
      (collectChars now' lg cdb' chs).1.nextCharId
  | [], now, now', cdb, cdb', hv, hn => ⟨rfl, hv, hn⟩
  | ch :: rest, now, now', cdb, cdb', hv, hn => by
    obtain ⟨h1, h2, h3⟩ := upsert_congr now now' cdb cdb' ch hv hn
    obtain ⟨g1, g2, g3⟩ := collectChars_congr lg rest now now'
      (upsertCharacter now cdb ch).2 (upsertCharacter now' cdb' ch).2 h2 h3
    rw [collectChars_cons, collectChars_cons]
    refine ⟨?_, g2, g3⟩
    rw [h1, g1]

/-- Re-collecting the same legacy characters from the state the first
collection produced reproduces the same tagged batches and leaves the
`(id, name)` view and serial counter unchanged: every upsert hits the
name conflict and returns the id resolved the first time. -/
theorem collect_idem (lg : LegacyDB) :
    ∀ (chs : List LegacyChar) (cdb : CharDB) (now now' : Int) (F : CharDB)
      (L : List TaggedLevelup) (D : List TaggedDeath),
    collectChars now lg cdb chs = (F, L, D) →
    (collectChars now' lg F chs).2.1 = L ∧
    (collectChars now' lg F chs).2.2 = D ∧
    (collectChars now' lg F chs).1.characters.map (fun c => (c.id, c.name)) =
      F.characters.map (fun c => (c.id, c.name)) ∧
    (collectChars now' lg F chs).1.nextCharId = F.nextCharId
  | [], cdb, now, now', F, L, D => by
    intro h
    injection h with hF h2
    injection h2 with hL hD
    subst hF; subst hL; subst hD
    exact ⟨rfl, rfl, rfl, rfl⟩
  | ch :: rest, cdb, now, now', F, L, D => by
    intro h
    rw [collectChars_cons] at h
    injection h with hF h2
    injection h2 with hL hD
    subst hF; subst hL; subst hD
    rw [collectChars_cons]
    -- the head upsert of the re-run hits the conflict on ch.name
    have hRl : lookupCharId
        (collectChars now lg (upsertCharacter now cdb ch).2 rest).1 ch.name =
        some (upsertCharacter now cdb ch).1 :=
      lookup_collect_preserved now lg rest (upsertCharacter now cdb ch).2 ch.name
        (upsertCharacter now cdb ch).1 (lookup_upsert_self now cdb ch)
    obtain ⟨row, hrow, hrowid⟩ := lookupCharId_some_row _ _ _ hRl
    have hq := upsertCharacter_conflict now'
      (collectChars now lg (upsertCharacter now cdb ch).2 rest).1 ch row hrow
    have hq1 : (upsertCharacter now'
        (collectChars now lg (upsertCharacter now cdb ch).2 rest).1 ch).1 =
        (upsertCharacter now cdb ch).1 := by
      rw [hq]
      exact hrowid
    have hq2view : (upsertCharacter now'
        (collectChars now lg (upsertCharacter now cdb ch).2 rest).1 ch).2.characters.map
          (fun c => (c.id, c.name)) =
        (collectChars now lg (upsertCharacter now cdb ch).2 rest).1.characters.map
          (fun c => (c.id, c.name)) := by
      rw [hq]
      exact touch_preserves_idname _ now' ch.name
    have hq2next : (upsertCharacter now'
        (collectChars now lg (upsertCharacter now cdb ch).2 rest).1 ch).2.nextCharId =
        (collectChars now lg (upsertCharacter now cdb ch).2 rest).1.nextCharId := by
      rw [hq]
    obtain ⟨g1, g2, g3⟩ := collectChars_congr lg rest now' now'
      (upsertCharacter now'
        (collectChars now lg (upsertCharacter now cdb ch).2 rest).1 ch).2
      (collectChars now lg (upsertCharacter now cdb ch).2 rest).1 hq2view hq2next
    obtain ⟨i1, i2, i3, i4⟩ := collect_idem lg rest (upsertCharacter now cdb ch).2 now now'
      (collectChars now lg (upsertCharacter now cdb ch).2 rest).1
      (collectChars now lg (upsertCharacter now cdb ch).2 rest).2.1
      (collectChars now lg (upsertCharacter now cdb ch).2 rest).2.2 rfl
    refine ⟨?_, ?_, ?_, ?_⟩
    · rw [hq1]
      rw [show ((collectChars now' lg
          (upsertCharacter now'
            (collectChars now lg (upsertCharacter now cdb ch).2 rest).1 ch).2 rest)).2 =
        ((collectChars now' lg
          (collectChars now lg (upsertCharacter now cdb ch).2 rest).1 rest)).2 from g1]
      rw [i1]
    · rw [hq1]
      rw [show ((collectChars now' lg
          (upsertCharacter now'
            (collectChars now lg (upsertCharacter now cdb ch).2 rest).1 ch).2 rest)).2 =
        ((collectChars now' lg
          (collectChars now lg (upsertCharacter now cdb ch).2 rest).1 rest)).2 from g1]
      rw [i2]
    · rw [g2, i3]
    · rw [g3, i4]

/-- Running `import_characters` a second time over the same legacy store
changes nothing: the deaths, killers and level-ups tables are literally
unchanged and the character table keeps the same ids and names (only the
conflict-update's `modified` refresh differs), because every candidate
hits the name-conflict upsert, the exact-timestamp death check or the
15-second level-up window check. -/
theorem import_characters_idem (now1 now2 : Int) (lg : LegacyDB) (cdb : CharDB) :
    (import_characters now2 lg (import_characters now1 lg cdb).1).1.deaths =
      (import_characters now1 lg cdb).1.deaths ∧
    (import_characters now2 lg (import_characters now1 lg cdb).1).1.killers =
      (import_characters now1 lg cdb).1.killers ∧
    (import_characters now2 lg (import_characters now1 lg cdb).1).1.levelups =
      (import_characters now1 lg cdb).1.levelups ∧
    (import_characters now2 lg (import_characters now1 lg cdb).1).1.characters.map
        (fun c => (c.id, c.name)) =
      (import_characters now1 lg cdb).1.characters.map (fun c => (c.id, c.name)) ∧
    (import_characters now2 lg (import_characters now1 lg cdb).1).1.characters.length =
      (import_characters now1 lg cdb).1.characters.length := by
  set ROWS := List.insertionSort (fun a b : LegacyChar => a.id ≤ b.id) lg.chars with hROWS
  set C1 := collectChars now1 lg cdb ROWS with hC1
  set SD1 := List.insertionSort (fun a b : TaggedDeath => a.date ≤ b.date) C1.2.2 with hSD1
  set SL1 := List.insertionSort (fun a b : TaggedLevelup => a.date ≤ b.date) C1.2.1 with hSL1
  set D1 := importDeaths C1.1 SD1 with hD1
  set L1 := importLevelups D1.1 SL1 with hL1
  have hF1 : (import_characters now1 lg cdb).1 = L1.1 := by
    rw [hL1, hD1, hSD1, hSL1, hC1, hROWS]
    rfl
  obtain ⟨hLch, hLnext, hLdeaths, hLdnext, hLkill, tL, hLlev⟩ :=
    importLevelups_state SL1 D1.1
  obtain ⟨hDch, hDnext, hDlev, hDlnext, _, tD, uD, hDdeaths, hDkill, _, _⟩ :=
    importDeaths_state SD1 C1.1
  rw [← hL1] at hLch hLnext hLdeaths hLdnext hLkill hLlev
  rw [← hD1] at hDch hDnext hDlev hDlnext hDdeaths hDkill
  -- the second collection sees the same (id, name) view and counter
  have hcharseq : L1.1.characters = C1.1.characters := hLch.trans hDch
  have hnexteq : L1.1.nextCharId = C1.1.nextCharId := hLnext.trans hDnext
  obtain ⟨hg1, hg2, hg3⟩ := collectChars_congr lg ROWS now2 now2 L1.1 C1.1
    (congrArg (List.map (fun c => (c.id, c.name))) hcharseq) hnexteq
  obtain ⟨hi1, hi2, hi3, hi4⟩ := collect_idem lg ROWS cdb now1 now2 C1.1 C1.2.1 C1.2.2
    (by rw [hC1])
  have hC21 : (collectChars now2 lg L1.1 ROWS).2.1 = C1.2.1 :=
    (congrArg Prod.fst hg1).trans hi1
  have hC22 : (collectChars now2 lg L1.1 ROWS).2.2 = C1.2.2 :=
    (congrArg Prod.snd hg1).trans hi2
  have hC2view : (collectChars now2 lg L1.1 ROWS).1.characters.map
      (fun c => (c.id, c.name)) = C1.1.characters.map (fun c => (c.id, c.name)) :=
    hg2.trans hi3
  obtain ⟨hFdeaths, _, hFkill, hFlev, _⟩ := collectChars_frame now2 lg ROWS L1.1
  -- every re-run death candidate is already blocked
  have hdupD : ∀ d ∈ SD1, deathExists (collectChars now2 lg L1.1 ROWS).1 d.char_id
      (utcfromtimestamp d.date) = true := by
    intro d hd
    obtain ⟨r, hrmem, hrc, hrd⟩ := importDeaths_covers SD1 C1.1 d hd
    rw [← hD1] at hrmem
    refine (deathExists_iff _ d.char_id (utcfromtimestamp d.date)).2 ⟨r, ?_, hrc, hrd⟩
    rw [hFdeaths, hLdeaths]
    exact hrmem
  have hDrun2 : importDeaths (collectChars now2 lg L1.1 ROWS).1 SD1 =
      ((collectChars now2 lg L1.1 ROWS).1, SD1.length) :=
    importDeaths_all_dup SD1 (collectChars now2 lg L1.1 ROWS).1 hdupD
  -- every re-run level-up candidate is already blocked
  have hdupL : ∀ l ∈ SL1, levelupExists (collectChars now2 lg L1.1 ROWS).1 l.char_id
      (utcfromtimestamp l.date) = true := by
    intro l hl
    obtain ⟨r, hrmem, hrc, hrd⟩ := importLevelups_covers SL1 D1.1 l hl
    rw [← hL1] at hrmem
    refine (levelupExists_iff _ l.char_id (utcfromtimestamp l.date)).2 ⟨r, ?_, hrc, hrd⟩
    rw [hFlev]
    exact hrmem
  have hLrun2 : importLevelups (collectChars now2 lg L1.1 ROWS).1 SL1 =
      ((collectChars now2 lg L1.1 ROWS).1, SL1.length) :=
    importLevelups_all_dup SL1 (collectChars now2 lg L1.1 ROWS).1 hdupL
  have hF2 : (import_characters now2 lg (import_characters now1 lg cdb).1).1 =
      (collectChars now2 lg L1.1 ROWS).1 := by
    rw [hF1, import_characters_def]
    rw [← hROWS, hC22, hC21, ← hSD1, ← hSL1, hDrun2]
    rw [hLrun2]
  refine ⟨?_, ?_, ?_, ?_, ?_⟩
  · rw [hF2, hF1, hFdeaths, hLdeaths]
  · rw [hF2, hF1, hFkill, hLkill]
  · rw [hF2, hF1, hFlev]
  · rw [hF2, hF1, hC2view, ← congrArg (List.map (fun c => (c.id, c.name))) hcharseq]
  · have hv : (import_characters now2 lg (import_characters now1 lg cdb).1).1.characters.map
        (fun c => (c.id, c.name)) =
      (import_characters now1 lg cdb).1.characters.map (fun c => (c.id, c.name)) := by
      rw [hF2, hF1, hC2view, ← congrArg (List.map (fun c => (c.id, c.name))) hcharseq]
    have hlen := congrArg List.length hv
    simpa [List.length_map] using hlen

/-- Whether a single property row imports cleanly depends only on the
row (its `json.loads` parses), never on the target state. -/
theorem importProperty_ok_transfer (row : LegacyProperty) (pdb pdb' : PropDB)
    (h : ∃ q, importProperty pdb row = .ok q) :
    ∃ q', importProperty pdb' row = .ok q' := by
  obtain ⟨q, hq⟩ := h
  rw [importProperty] at hq ⊢
  by_cases hp : row.name == "prefixes"
  · rw [if_pos hp] at hq ⊢
    rcases hv : jsonLoads row.value with e | v
    · simp only [hv] at hq
      exact absurd hq (by simp)
    · cases v with
      | list xs =>
        simp only [hv]
        exact ⟨_, rfl⟩
      | str a =>
        simp only [hv] at hq
        exact absurd hq (by simp)
      | int n =>
        simp only [hv] at hq
        exact absurd hq (by simp)
      | null =>
        simp only [hv] at hq
        exact absurd hq (by simp)
  · rw [if_neg hp] at hq ⊢
    by_cases ht : row.name == "times"
    · simp only [if_pos ht] at hq ⊢
      rcases hv : jsonLoads row.value with e | v
      · simp only [hv, Except.map] at hq
        exact absurd hq (by simp)
      · simp only [hv, Except.map]
        exact ⟨_, rfl⟩
    · by_cases hc : row.name == "commandsonly"
      · simp only [if_neg ht, if_pos hc]
        exact ⟨_, rfl⟩
      · simp only [if_neg ht, if_neg hc]
        exact ⟨_, rfl⟩

/-- Whether the whole property import succeeds depends only on the
legacy rows, never on the target state. -/
theorem import_server_properties_ok_transfer :
    ∀ (rows : List LegacyProperty) (pdb pdb' : PropDB) (p : PropDB),
    import_server_properties pdb rows = .ok p →
    ∃ p', import_server_properties pdb' rows = .ok p'
  | [], pdb, pdb', p, _ => ⟨pdb', rfl⟩
  | row :: rest, pdb, pdb', p, h => by
    rcases hs : importProperty pdb row with e | q
    · simp only [import_server_properties, hs] at h
      exact absurd h (by simp)
    · simp only [import_server_properties, hs] at h
      obtain ⟨q', hq'⟩ := importProperty_ok_transfer row pdb pdb' ⟨q, hs⟩
      obtain ⟨p', hp'⟩ := import_server_properties_ok_transfer rest q q' p h
      refine ⟨p', ?_⟩
      simp only [import_server_properties, hq']
      exact hp'

/-- Unfolding of `import_legacy_db` when the property import succeeds. -/
theorem import_legacy_db_eq_ok (now : Int) (lg : LegacyDB) (db : DB) (pdb : PropDB)
    (hp : import_server_properties db.propDB lg.server_properties = .ok pdb) :
    import_legacy_db now lg db = .ok
      { charDB := (import_characters now lg db.charDB).1,
        propDB := pdb,
        eventDB := import_events now lg (import_characters now lg db.charDB).1 db.eventDB,
        roleDB := import_roles db.roleDB lg } := by
  rw [import_legacy_db]
  simp only [hp]

/-! ### C1 — a second import of the same legacy store adds no rows -/

/-- C1: when a full `import_legacy_db` run has completed, running it
again over the same legacy store succeeds and inserts no new
`character`, `character_death` or `character_levelup` rows (killer rows
included): every candidate hits the name-conflict upsert, the exact
`(character_id, timestamp)` death check, or the 15-second level-up
window check. -/
theorem import_legacy_idempotent (now1 now2 : Int) (lg : LegacyDB) (db : DB)
    (h : ∃ db1, import_legacy_db now1 lg db = .ok db1) :
    ∃ db1 db2, import_legacy_db now1 lg db = .ok db1 ∧
      import_legacy_db now2 lg db1 = .ok db2 ∧
      db2.charDB.deaths = db1.charDB.deaths ∧
      db2.charDB.killers = db1.charDB.killers ∧
      db2.charDB.levelups = db1.charDB.levelups ∧
      db2.charDB.characters.map (fun c => (c.id, c.name)) =
        db1.charDB.characters.map (fun c => (c.id, c.name)) ∧
      db2.charDB.characters.length = db1.charDB.characters.length := by
  obtain ⟨db1, h1⟩ := h
  rcases hp : import_server_properties db.propDB lg.server_properties with e | pdb
  · rw [import_legacy_db] at h1
    simp only [hp] at h1
    exact absurd h1 (by simp)
  · rw [import_legacy_db_eq_ok now1 lg db pdb hp] at h1
    injection h1 with h1
    obtain ⟨pdb2, hp2⟩ := import_server_properties_ok_transfer lg.server_properties
      db.propDB pdb pdb hp
    obtain ⟨e1, e2, e3, e4, e5⟩ := import_characters_idem now1 now2 lg db.charDB
    subst h1
    refine ⟨_, _, import_legacy_db_eq_ok now1 lg db pdb hp,
      import_legacy_db_eq_ok now2 lg _ pdb2 hp2, e1, e2, e3, e4, e5⟩

/-- Legacy store exercising every importer for the C1 witness. -/
def lgRerun : LegacyDB :=
  { chars := [{ id := 1, user_id := 100, name := "Alice", level := some 10,
                vocation := none, world := none, guild := none }],
    char_levelups := [{ char_id := 1, level := some 10, date := 0 },
                      { char_id := 1, level := some 11, date := 10 }],
    char_deaths := [{ char_id := 1, level := some 9, date := 50, killer := "Rat",
                      byplayer := 0 }],
    server_properties := [{ server_id := 7, name := "prefixes", value := .list ["!"] },
                          { server_id := 7, name := "commandsonly", value := .str "0" }],
    events := [{ id := 5, creator := 10, name := "Hunt", start := 100, active := 1,
                 status := 1, description := none, server := 7, joinable := 1,
                 slots := 0 }],
    event_subscribers := [{ event_id := 5, user_id := 42 }],
    event_participants := [{ char_id := 1, event_id := 5 }],
    auto_roles := [{ server_id := 7, role_id := 9, guild := "G" }],
    joinable_roles := [{ server_id := 7, role_id := 11 }] }

/-- Witness for C1: a complete concrete run followed by a re-run. -/
theorem import_legacy_idempotent_witness :
    ∃ db1 db2,
      import_legacy_db 1 lgRerun ⟨⟨[], 1, [], 1, [], [], 1⟩, ⟨[], []⟩, ⟨[], 1, [], []⟩,
        ⟨[], []⟩⟩ = .ok db1 ∧
      import_legacy_db 2 lgRerun db1 = .ok db2 ∧
      db2.charDB.deaths = db1.charDB.deaths ∧
      db2.charDB.killers = db1.charDB.killers ∧
      db2.charDB.levelups = db1.charDB.levelups ∧
      db2.charDB.characters.map (fun c => (c.id, c.name)) =
        db1.charDB.characters.map (fun c => (c.id, c.name)) ∧
      db2.charDB.characters.length = db1.charDB.characters.length :=
  import_legacy_idempotent 1 2 lgRerun
    ⟨⟨[], 1, [], 1, [], [], 1⟩, ⟨[], []⟩, ⟨[], 1, [], []⟩, ⟨[], []⟩⟩ ⟨_, rfl⟩

/-! ### C4 — level-up 15-second window deduplication -/

/-- Legacy store: one character with level-ups at t = 0 s and t = 10 s. -/
def lgWindowTen : LegacyDB :=
  { chars := [{ id := 1, user_id := 100, name := "Alice", level := some 10,
                vocation := none, world := none, guild := none }],
    char_levelups := [{ char_id := 1, level := some 10, date := 0 },
                      { char_id := 1, level := some 11, date := 10 }],
    char_deaths := [], server_properties := [], events := [],
    event_subscribers := [], event_participants := [], auto_roles := [],
    joinable_roles := [] }

/-- Legacy store: one character with level-ups at t = 0 s and t = 20 s. -/
def lgWindowTwenty : LegacyDB :=
  { chars := [{ id := 1, user_id := 100, name := "Alice", level := some 10,
                vocation := none, world := none, guild := none }],
    char_levelups := [{ char_id := 1, level := some 10, date := 0 },
                      { char_id := 1, level := some 11, date := 20 }],
    char_deaths := [], server_properties := [], events := [],
    event_subscribers := [], event_participants := [], auto_roles := [],
    joinable_roles := [] }

/-- C4: the level-ups loop skips a candidate exactly when some level-up
already stored for the same character lies within the inclusive
symmetric 15-second window `max (new - existing, existing - new) ≤ 15 s`
of the candidate's timestamp, and inserts it otherwise; in particular
one character's legacy level-ups at t = 0 s and t = 10 s leave exactly
one `character_levelup` row, while t = 0 s and t = 20 s leave two. -/
theorem levelup_window_dedup :
    (∀ (cdb : CharDB) (l : TaggedLevelup) (rest : List TaggedLevelup),
      importLevelups cdb (l :: rest) =
        if ∃ r ∈ cdb.levelups, r.character_id = l.char_id ∧
            max (l.date - r.date) (r.date - l.date) ≤ (15 : Int) then
          ((importLevelups cdb rest).1, (importLevelups cdb rest).2 + 1)
        else importLevelups (insertLevelup cdb l) rest) ∧
    (import_characters 0 lgWindowTen ⟨[], 1, [], 1, [], [], 1⟩).1.levelups.length = 1 ∧
    (import_characters 0 lgWindowTwenty ⟨[], 1, [], 1, [], [], 1⟩).1.levelups.length = 2 := by
  refine ⟨?_, by decide, by decide⟩
  intro cdb l rest
  by_cases h : ∃ r ∈ cdb.levelups, r.character_id = l.char_id ∧
      max (l.date - r.date) (r.date - l.date) ≤ (15 : Int)
  · rw [if_pos h]
    exact importLevelups_cons_skip cdb l rest ((levelupExists_iff cdb l.char_id l.date).2 h)
  · rw [if_neg h]
    refine importLevelups_cons_insert cdb l rest ?_
    rcases hx : levelupExists cdb l.char_id (utcfromtimestamp l.date) with _ | _
    · rfl
    · exact absurd ((levelupExists_iff cdb l.char_id l.date).1 hx) h

/-! ### C5 — death exact-timestamp deduplication with killer rows -/

/-- Legacy store: one character with two deaths at the same timestamp. -/
def lgDupDeath : LegacyDB :=
  { chars := [{ id := 1, user_id := 100, name := "Alice", level := some 10,
                vocation := none, world := none, guild := none }],
    char_levelups := [],
    char_deaths := [{ char_id := 1, level := some 9, date := 50, killer := "Rat",
                      byplayer := 0 },
                    { char_id := 1, level := some 9, date := 50, killer := "Demon",
                      byplayer := 1 }],
    server_properties := [], events := [], event_subscribers := [],
    event_participants := [], auto_roles := [], joinable_roles := [] }

/-- C5: deaths are processed in globally timestamp-sorted order; a
candidate is skipped (counted as a duplicate) exactly when a death for
the same character at the same exact converted timestamp already exists;
an inserted death appends exactly one killer row referencing its fresh
id, whose player flag is true iff the legacy flag equals 1; and two
legacy deaths of one character with identical timestamps leave exactly
one `character_death` row. -/
theorem death_exact_dedup :
    (∀ (cdb : CharDB) (d : TaggedDeath) (rest : List TaggedDeath),
      importDeaths cdb (d :: rest) =
        if ∃ r ∈ cdb.deaths, r.character_id = d.char_id ∧
            r.date = utcfromtimestamp d.date then
          ((importDeaths cdb rest).1, (importDeaths cdb rest).2 + 1)
        else importDeaths (insertDeath cdb d) rest) ∧
    (∀ (cdb : CharDB) (d : TaggedDeath),
      (insertDeath cdb d).deaths = cdb.deaths ++
          [{ id := cdb.nextDeathId, character_id := d.char_id, level := d.level,
             date := utcfromtimestamp d.date }] ∧
      (insertDeath cdb d).killers = cdb.killers ++
          [{ death_id := cdb.nextDeathId, position := 0, name := d.killer,
             player := d.byplayer == 1 }]) ∧
    (∀ ds : List TaggedDeath,
      List.Sorted (fun a b : TaggedDeath => a.date ≤ b.date)
        (List.insertionSort (fun a b => a.date ≤ b.date) ds)) ∧
    (∀ (ds : List TaggedDeath) (cdb : CharDB),
      (∀ r ∈ cdb.deaths, r.id < cdb.nextDeathId) →
      (∀ k ∈ cdb.killers, k.death_id < cdb.nextDeathId) →
      ∀ rrow, rrow ∈ (importDeaths cdb ds).1.deaths → rrow ∉ cdb.deaths →
        ((importDeaths cdb ds).1.killers.filter
            (fun k => k.death_id == rrow.id)).length = 1) ∧
    (import_characters 0 lgDupDeath ⟨[], 1, [], 1, [], [], 1⟩).1.deaths.length = 1 := by
  refine ⟨?_, fun cdb d => ⟨rfl, rfl⟩, ?_, importDeaths_killer_unique, by decide⟩
  · intro cdb d rest
    by_cases h : ∃ r ∈ cdb.deaths, r.character_id = d.char_id ∧
        r.date = utcfromtimestamp d.date
    · rw [if_pos h]
      exact importDeaths_cons_skip cdb d rest
        ((deathExists_iff cdb d.char_id (utcfromtimestamp d.date)).2 h)
    · rw [if_neg h]
      refine importDeaths_cons_insert cdb d rest ?_
      rcases hx : deathExists cdb d.char_id (utcfromtimestamp d.date) with _ | _
      · rfl
      · exact absurd ((deathExists_iff cdb d.char_id (utcfromtimestamp d.date)).1 hx) h
  · intro ds
    haveI : IsTotal TaggedDeath (fun a b => a.date ≤ b.date) :=
      ⟨fun a b => le_total a.date b.date⟩
    haveI : IsTrans TaggedDeath (fun a b => a.date ≤ b.date) :=
      ⟨fun _ _ _ hab hbc => le_trans hab hbc⟩
    exact List.sorted_insertionSort _ ds

/-- Witness for C5: importing a single death into an empty store leaves
exactly one killer row referencing the inserted death row's id. -/
theorem death_exact_dedup_witness :
    ((importDeaths ⟨[], 1, [], 1, [], [], 1⟩
        [{ char_id := 1, level := some 5, date := 100, killer := "Orc",
           byplayer := 1 }]).1.killers.filter
      (fun k => k.death_id == (1 : Nat))).length = 1 :=
  death_exact_dedup.2.2.2.1
    [{ char_id := 1, level := some 5, date := 100, killer := "Orc", byplayer := 1 }]
    ⟨[], 1, [], 1, [], [], 1⟩ (by decide) (by decide)
    { id := 1, character_id := 1, level := some 5, date := 100 } (by decide) (by decide)

/-! ### C9 — duplicates do not abort the batch -/

/-- C9: hitting a duplicate death or level-up does not abort the batch —
the remaining records are processed against an unchanged store while the
duplicate is only counted; inserted plus skipped records always account
for the whole batch; and the character upsert never fails, yielding a
usable id whether it inserted or hit the name conflict. -/
theorem import_continues_past_duplicates :
    (∀ (cdb : CharDB) (d : TaggedDeath) (rest : List TaggedDeath),
      deathExists cdb d.char_id (utcfromtimestamp d.date) = true →
      importDeaths cdb (d :: rest) =
        ((importDeaths cdb rest).1, (importDeaths cdb rest).2 + 1)) ∧
    (∀ (cdb : CharDB) (l : TaggedLevelup) (rest : List TaggedLevelup),
      levelupExists cdb l.char_id (utcfromtimestamp l.date) = true →
      importLevelups cdb (l :: rest) =
        ((importLevelups cdb rest).1, (importLevelups cdb rest).2 + 1)) ∧
    (∀ (cdb : CharDB) (ds : List TaggedDeath),
      (importDeaths cdb ds).1.deaths.length + (importDeaths cdb ds).2 =
        cdb.deaths.length + ds.length) ∧
    (∀ (cdb : CharDB) (ls : List TaggedLevelup),
      (importLevelups cdb ls).1.levelups.length + (importLevelups cdb ls).2 =
        cdb.levelups.length + ls.length) ∧
    (∀ (now : Int) (cdb : CharDB) (ch : LegacyChar),
      lookupCharId (upsertCharacter now cdb ch).2 ch.name =
        some (upsertCharacter now cdb ch).1) := by
  refine ⟨importDeaths_cons_skip, importLevelups_cons_skip, ?_, ?_, lookup_upsert_self⟩
  · intro cdb ds
    induction ds generalizing cdb with
    | nil => simp [importDeaths]
    | cons d rest ih =>
      by_cases h : deathExists cdb d.char_id (utcfromtimestamp d.date)
      · rw [importDeaths_cons_skip cdb d rest h]
        have := ih cdb
        simp only [List.length_cons]
        omega
      · rw [importDeaths_cons_insert cdb d rest (by simpa using h)]
        have h1 := ih (insertDeath cdb d)
        have h2 : (insertDeath cdb d).deaths.length = cdb.deaths.length + 1 := by
          simp [insertDeath]
        simp only [List.length_cons]
        omega
  · intro cdb ls
    induction ls generalizing cdb with
    | nil => simp [importLevelups]
    | cons l rest ih =>
      by_cases h : levelupExists cdb l.char_id (utcfromtimestamp l.date)
      · rw [importLevelups_cons_skip cdb l rest h]
        have := ih cdb
        simp only [List.length_cons]
        omega
      · rw [importLevelups_cons_insert cdb l rest (by simpa using h)]
        have h1 := ih (insertLevelup cdb l)
        have h2 : (insertLevelup cdb l).levelups.length = cdb.levelups.length + 1 := by
          simp [insertLevelup]
        simp only [List.length_cons]
        omega

/-- Witness for C9: a batch of two identical deaths into an empty store
— the head is fresh, the second is a duplicate that is skipped while the
batch completes. -/
theorem import_continues_past_duplicates_witness :
    deathExists
        (insertDeath ⟨[], 1, [], 1, [], [], 1⟩
          { char_id := 1, level := some 9, date := 50, killer := "Rat", byplayer := 0 })
        1 (utcfromtimestamp 50) = true ∧
    importDeaths
        (insertDeath ⟨[], 1, [], 1, [], [], 1⟩
          { char_id := 1, level := some 9, date := 50, killer := "Rat", byplayer := 0 })
        [{ char_id := 1, level := some 9, date := 50, killer := "Demon", byplayer := 1 }] =
      ((insertDeath ⟨[], 1, [], 1, [], [], 1⟩
          { char_id := 1, level := some 9, date := 50, killer := "Rat", byplayer := 0 }), 1) :=
  ⟨by decide,
   import_continues_past_duplicates.1
     (insertDeath ⟨[], 1, [], 1, [], [], 1⟩
       { char_id := 1, level := some 9, date := 50, killer := "Rat", byplayer := 0 })
     { char_id := 1, level := some 9, date := 50, killer := "Demon", byplayer := 1 }
     [] (by decide)⟩

/-! ### C3 — the conflict upsert refreshes `modified` via the trigger -/

/-- A target store already holding a character named Alice, with
`modified = 0`. -/
def dbExistingAlice : CharDB :=
  { characters := [{ id := 1, user_id := 100, name := "Alice", level := some 10,
                     world := some "W", vocation := some "V", guild := some "G",
                     modified := 0, created := 0 }],
    nextCharId := 2, deaths := [], nextDeathId := 1, killers := [],
    levelups := [], nextLevelupId := 1 }

/-- A legacy store whose single character collides with Alice by name. -/
def lgConflictAlice : LegacyDB :=
  { chars := [{ id := 1, user_id := 200, name := "Alice", level := some 20,
                vocation := some "X", world := some "Y", guild := some "Z" }],
    char_levelups := [], char_deaths := [], server_properties := [], events := [],
    event_subscribers := [], event_participants := [], auto_roles := [],
    joinable_roles := [] }

/-- Counterexample to C3 as stated: importing a legacy character whose
name collides with an existing row changes that row's `modified` column
(the `ON CONFLICT … DO UPDATE` fires the `update_character_modified`
trigger), so not all of the listed fields are unchanged. -/
theorem upsert_conflict_changes_modified :
    ¬ ((import_characters 100 lgConflictAlice dbExistingAlice).1.characters.map
          (fun c => c.modified) =
        dbExistingAlice.characters.map (fun c => c.modified)) := by
  decide

/-- C3 (amended): on a name conflict the upsert reuses the existing
row's id and changes none of the row's columns except `modified`, which
the `update_character_modified` trigger sets to the current time; the
other character tables are untouched. -/
theorem upsert_conflict_frame (now : Int) (cdb : CharDB) (ch : LegacyChar)
    (r : Character) (h : lookupCharRow cdb ch.name = some r) :
    (upsertCharacter now cdb ch).1 = r.id ∧
    (upsertCharacter now cdb ch).2.characters =
      cdb.characters.map
        (fun x => if x.name == ch.name then { x with modified := now } else x) ∧
    (upsertCharacter now cdb ch).2.nextCharId = cdb.nextCharId ∧
    (upsertCharacter now cdb ch).2.deaths = cdb.deaths ∧
    (upsertCharacter now cdb ch).2.killers = cdb.killers ∧
    (upsertCharacter now cdb ch).2.levelups = cdb.levelups := by
  refine ⟨by simp [upsertCharacter, h], ?_, by simp [upsertCharacter, h],
    by simp [upsertCharacter, h], by simp [upsertCharacter, h],
    by simp [upsertCharacter, h]⟩
  simp only [upsertCharacter, h]
  apply List.map_congr_left
  intro x _
  by_cases hx : x.name == ch.name
  · simp only [if_pos hx]
    rw [← eq_of_beq hx]
  · simp only [if_neg hx]

/-- Witness for C3 (amended): the conflicting upsert against Alice's row
returns her existing id 1. -/
theorem upsert_conflict_frame_witness :
    (upsertCharacter 100 dbExistingAlice
      { id := 1, user_id := 200, name := "Alice", level := some 20,
        vocation := some "X", world := some "Y", guild := some "Z" }).1 = 1 :=
  (upsert_conflict_frame 100 dbExistingAlice
    { id := 1, user_id := 200, name := "Alice", level := some 20,
      vocation := some "X", world := some "Y", guild := some "Z" }
    { id := 1, user_id := 100, name := "Alice", level := some 10,
      world := some "W", vocation := some "V", guild := some "G",
      modified := 0, created := 0 } (by rfl)).1

/-! ### C6 — event reminder re-encoding -/

/-- Legacy store with a single event of status 1. -/
def lgStatusOne : LegacyDB :=
  { chars := [], char_levelups := [], char_deaths := [], server_properties := [],
    events := [{ id := 1, creator := 10, name := "E", start := 0, active := 1,
                 status := 1, description := none, server := 5, joinable := 1, slots := 0 }],
    event_subscribers := [], event_participants := [], auto_roles := [],
    joinable_roles := [] }

/-- Legacy store with a single event of status 4. -/
def lgStatusFour : LegacyDB :=
  { chars := [], char_levelups := [], char_deaths := [], server_properties := [],
    events := [{ id := 1, creator := 10, name := "E", start := 0, active := 1,
                 status := 4, description := none, server := 5, joinable := 1, slots := 0 }],
    event_subscribers := [], event_participants := [], auto_roles := [],
    joinable_roles := [] }

/-- C6: for every legacy event, the `event` row that `import_events`
appends for it has `reminder = 4 - status`; in particular a legacy event
with status 1 is imported with reminder 3, and one with status 4 with
reminder 0. -/
theorem import_events_reminder_reencoding :
    (∀ (now : Int) (lg : LegacyDB) (cdb : CharDB) (edb : EventDB),
      ((import_events now lg cdb edb).events.drop edb.events.length).map
          (fun e => e.reminder) =
        lg.events.map (fun ev => 4 - ev.status)) ∧
    ((import_events 0 lgStatusOne ⟨[], 1, [], 1, [], [], 1⟩ ⟨[], 1, [], []⟩).events.map
        (fun e => e.reminder) = [3]) ∧
    ((import_events 0 lgStatusFour ⟨[], 1, [], 1, [], [], 1⟩ ⟨[], 1, [], []⟩).events.map
        (fun e => e.reminder) = [0]) := by
  refine ⟨?_, by decide, by decide⟩
  intro now lg cdb edb
  obtain ⟨t, ht, hm⟩ := collectEvents_events now lg lg.events edb
  rw [import_events, importParticipants_events, importSubscribers_events, ht,
    List.drop_left, hm]

/-! ### C7 — orphan event participants are silently dropped -/

/-- Legacy store with one event whose only participant references a
character never present among the imported characters. -/
def lgOrphan : LegacyDB :=
  { chars := [{ id := 1, user_id := 100, name := "Alice", level := some 10,
                vocation := none, world := none, guild := none }],
    char_levelups := [], char_deaths := [], server_properties := [],
    events := [{ id := 5, creator := 10, name := "E", start := 0, active := 1,
                 status := 1, description := none, server := 5, joinable := 1, slots := 0 }],
    event_subscribers := [],
    event_participants := [{ char_id := 99, event_id := 5 }],
    auto_roles := [], joinable_roles := [] }

/-- C7: a participant whose character name does not resolve against the
target `"character"` table is dropped without touching the store, and a
resolving participant is inserted with `(event_id, character_id)`
conflict-skip; concretely, an event participant referencing a character
that was never imported produces no `event_participant` row. -/
theorem import_events_participant_resolution
    (cdb : CharDB) (edb : EventDB) (eid : Nat) (nm : Option String)
    (rest : List (Nat × Option String)) :
    (nm.bind (fun n => lookupCharId cdb n) = none →
      importParticipants cdb edb ((eid, nm) :: rest) = importParticipants cdb edb rest) ∧
    (∀ cid, nm.bind (fun n => lookupCharId cdb n) = some cid →
      importParticipants cdb edb ((eid, nm) :: rest) =
        importParticipants cdb
          (if participantExists edb eid cid then edb
           else { edb with event_participant := edb.event_participant ++ [(eid, cid)] })
          rest) ∧
    (import_events 0 lgOrphan
        (import_characters 0 lgOrphan ⟨[], 1, [], 1, [], [], 1⟩).1
        ⟨[], 1, [], []⟩).event_participant = [] := by
  refine ⟨?_, ?_, by decide⟩
  · intro h; simp [importParticipants, h]
  · intro cid h; simp [importParticipants, h]

/-- Witness for C7: a participant named after a never-imported character
is dropped, leaving the store untouched. -/
theorem import_events_participant_resolution_witness :
    importParticipants ⟨[], 1, [], 1, [], [], 1⟩ ⟨[], 1, [], []⟩ [(1, some "Ghost")] =
      importParticipants ⟨[], 1, [], 1, [], [], 1⟩ ⟨[], 1, [], []⟩ [] :=
  (import_events_participant_resolution ⟨[], 1, [], 1, [], [], 1⟩ ⟨[], 1, [], []⟩ 1
    (some "Ghost") []).1 (by decide)

/-! ### C8 — prefixes are split into server_prefixes -/

/-- A single `importProperty` step never adds a `server_property` row
keyed `prefixes`: the `prefixes` branch writes only `server_prefixes`,
and every other branch writes under its own (non-`prefixes`) key. -/
theorem importProperty_no_prefix_property (pdb : PropDB) (row : LegacyProperty)
    (pdb₁ : PropDB) (h : importProperty pdb row = .ok pdb₁) :
    ∀ rrow ∈ pdb₁.server_property, rrow.key = "prefixes" →
      rrow ∈ pdb.server_property := by
  intro rrow hr hk
  rw [importProperty] at h
  by_cases hp : row.name == "prefixes"
  · rw [if_pos hp] at h
    split at h
    · exact absurd h (by simp)
    · simp only [Except.ok.injEq] at h
      subst h
      split at hr
      · exact hr
      · exact hr
    · exact absurd h (by simp)
  · rw [if_neg hp] at h
    have hname : row.name ≠ "prefixes" := by
      intro hcontra
      exact hp (by simp [hcontra])
    simp only [] at h
    split at h
    · exact absurd h (by simp)
    · simp only [Except.ok.injEq] at h
      subst h
      split at hr
      · exact hr
      · rcases List.mem_append.1 hr with hold | hnew
        · exact hold
        · simp only [List.mem_singleton] at hnew
          subst hnew
          exact absurd hk hname

/-- C8: a legacy property with key `prefixes` routes its parsed list of
strings into `server_prefixes` (skipping, not overwriting, when the
server already has a row), and no `server_property` row with key
`prefixes` is ever created; concretely the value `["!", "."]` for server
7 yields exactly the `server_prefixes` row `(7, ["!", "."])` and an empty
`server_property` table. -/
theorem import_server_properties_prefix_isolation :
    (∀ (pdb : PropDB) (rows : List LegacyProperty) (pdb' : PropDB),
      import_server_properties pdb rows = .ok pdb' →
      ∀ rrow ∈ pdb'.server_property, rrow.key = "prefixes" →
        rrow ∈ pdb.server_property) ∧
    (∀ (pdb : PropDB) (s : Int) (xs : List String), prefixesExists pdb s = true →
      importProperty pdb { server_id := s, name := "prefixes", value := .list xs } =
        .ok pdb) ∧
    (∀ (pdb : PropDB) (s : Int) (xs : List String), prefixesExists pdb s = false →
      importProperty pdb { server_id := s, name := "prefixes", value := .list xs } =
        .ok { pdb with server_prefixes := pdb.server_prefixes ++ [(s, xs)] }) ∧
    (import_server_properties ⟨[], []⟩
        [{ server_id := 7, name := "prefixes", value := .list ["!", "."] }] =
      .ok ⟨[], [(7, ["!", "."])]⟩) := by
  refine ⟨?_, ?_, ?_, by rfl⟩
  · intro pdb rows
    induction rows generalizing pdb with
    | nil =>
      intro pdb' h rrow hr hk
      simp only [import_server_properties] at h
      cases h
      exact hr
    | cons row rest ih =>
      intro pdb' h rrow hr hk
      rcases hstep : importProperty pdb row with e | pdb₁ <;>
        simp only [import_server_properties, hstep] at h
      · exact absurd h (by simp)
      · exact importProperty_no_prefix_property pdb row pdb₁ hstep rrow
          (ih pdb₁ pdb' h rrow hr hk) hk
  · intro pdb s xs h
    simp [importProperty, jsonLoads, h]
  · intro pdb s xs h
    simp [importProperty, jsonLoads, h]

/-- Witness for C8: a `prefixes` property for a server that already has
a `server_prefixes` row is skipped without overwriting it. -/
theorem import_server_properties_prefix_isolation_witness :
    importProperty ⟨[], [(7, ["?"])]⟩
        { server_id := 7, name := "prefixes", value := .list ["!"] } =
      .ok ⟨[], [(7, ["?"])]⟩ :=
  import_server_properties_prefix_isolation.2.1 ⟨[], [(7, ["?"])]⟩ 7 ["!"] (by decide)

/-! ### C10 — commandsonly stores raw-value truthiness -/

/-- C10: a `commandsonly` property stores the JSON boolean of the Python
truthiness of the raw legacy value: the stored value is `false` exactly
for the empty string, the integer 0 and NULL, while any non-empty text —
including `"0"` and `"false"` — is stored as `true`. -/
theorem import_server_properties_commandsonly_truthiness :
    (∀ (pdb : PropDB) (s : Int) (v : SVal),
      propertyExists pdb s "commandsonly" = false →
      importProperty pdb { server_id := s, name := "commandsonly", value := v } =
        .ok { pdb with
                server_property := pdb.server_property ++
                  [{ server_id := s, key := "commandsonly",
                     value := Json.bool (pyBool v) }] }) ∧
    (∀ v : SVal, pyBool v = false ↔ v = .str "" ∨ v = .int 0 ∨ v = .null) ∧
    pyBool (.str "0") = true ∧ pyBool (.str "false") = true := by
  refine ⟨?_, ?_, by decide, by decide⟩
  · intro pdb s v h
    simp [importProperty, h]
  · intro v
    cases v with
    | str s =>
      constructor
      · intro h
        left
        simp only [pyBool, bne_eq_false_iff_eq] at h
        simp [h]
      · rintro (h | h | h) <;> simp_all [pyBool]
    | int n =>
      constructor
      · intro h
        right; left
        simp only [pyBool, bne_eq_false_iff_eq] at h
        simp [h]
      · rintro (h | h | h) <;> simp_all [pyBool]
    | null => simp [pyBool]
    | list xs => simp [pyBool]

/-- Witness for C10: the raw text "0" is truthy in Python, so it is
stored as JSON true. -/
theorem import_server_properties_commandsonly_truthiness_witness :
    importProperty ⟨[], []⟩ { server_id := 3, name := "commandsonly", value := .str "0" } =
      .ok ⟨[{ server_id := 3, key := "commandsonly", value := Json.bool true }], []⟩ :=
  import_server_properties_commandsonly_truthiness.1 ⟨[], []⟩ 3 (.str "0") (by decide)

end NabBot
